import Mathlib

/-!
Verification development for the email-identity deduplication pipeline of
`dedup_network.py` (repository `emailexplorer`).

The Python source is shallowly embedded: strings are `List Char` (`Str`),
Python dicts are insertion-ordered association lists, Python sets are
insertion-ordered duplicate-free lists (one legal realisation of Python's
unspecified set iteration order), integers are `Nat`/`Int`, and float
arithmetic (Jaro-Winkler similarity, count ratios) is modelled exactly over
`ℚ`.  Each definition mirrors the source function of the same name.
-/

set_option maxRecDepth 4000

namespace Dedup

/-- Strings are modelled as lists of characters (Python `str`). -/
abbrev Str := List Char

/-- Convert a Lean string literal to the `Str` model. -/
def str (s : String) : Str := s.data

/-- Whitespace characters stripped by Python `str.strip()` (ASCII range). -/
def wsChars : List Char := [' ', '\t', '\n', '\r', Char.ofNat 11, Char.ofNat 12]

/-- Drop the given characters from both ends (Python `str.strip(chars)`). -/
def stripChars (cs : List Char) (s : Str) : Str :=
  ((s.dropWhile (fun c => decide (c ∈ cs))).reverse.dropWhile
    (fun c => decide (c ∈ cs))).reverse

/-- Python `str.strip()` (no argument): strip whitespace from both ends. -/
def pyStrip (s : Str) : Str := stripChars wsChars s

/-- Python `str.lower()` (ASCII behaviour, which covers all pipeline data). -/
def pyLower (s : Str) : Str := s.map Char.toLower

/-- Python `str.upper()` (ASCII behaviour). -/
def pyUpper (s : Str) : Str := s.map Char.toUpper

/-- Whether the character is an ASCII lowercase letter (regex class `[a-z]`). -/
def isLowerAZ (c : Char) : Bool := 'a' ≤ c ∧ c ≤ 'z'

/-- Whether the character is an ASCII digit (regex class `\d` on this data). -/
def isDigitC (c : Char) : Bool := '0' ≤ c ∧ c ≤ '9'

/-- Whether the character is an ASCII letter. -/
def isAlphaC (c : Char) : Bool := isLowerAZ c ∨ ('A' ≤ c ∧ c ≤ 'Z')

/-- Does the string contain the character (Python `c in s`)? -/
def hasChar (c : Char) (s : Str) : Bool := s.any (fun d => decide (d = c))

/-- Does the string contain an `'@'`? -/
def hasAt (s : Str) : Bool := hasChar '@' s

/-- Python `sub in s` substring containment. -/
def containsSub (pat s : Str) : Bool := s.tails.any (fun t => pat.isPrefixOf t)

/-- Fuel-driven core of `replaceL`; the fuel only has to dominate the string
length, so the recursion is structural and kernel-reducible. -/
def replaceGo (pat rep : Str) : Nat → Str → Str
  | _, [] => []
  | 0, s => s
  | fuel + 1, c :: cs =>
    if pat ≠ [] ∧ pat.isPrefixOf (c :: cs) then
      rep ++ replaceGo pat rep fuel ((c :: cs).drop pat.length)
    else
      c :: replaceGo pat rep fuel cs

/-- Python `s.replace(old, new)`: replace all non-overlapping occurrences,
left to right.  (All call sites use a non-empty `pat`.) -/
def replaceL (pat rep s : Str) : Str := replaceGo pat rep s.length s

/-- Split on every character satisfying `p`, keeping empty pieces
(Python `re.split` with a single-character class). -/
def splitOnPred (p : Char → Bool) : Str → List Str
  | [] => [[]]
  | c :: cs =>
    match splitOnPred p cs with
    | [] => [[]]
    | t :: ts => if p c then [] :: t :: ts else (c :: t) :: ts

/-- Split at the first occurrence of `sep` (Python `s.split(sep, 1)` when the
separator occurs). -/
def splitFirst (sep : Char) : Str → Option (Str × Str)
  | [] => none
  | c :: cs =>
    if c = sep then some ([], cs)
    else (splitFirst sep cs).map (fun pr => (c :: pr.1, pr.2))

/-- Python `sep.join(pieces)`. -/
def pyJoin (sep : Str) : List Str → Str
  | [] => []
  | [x] => x
  | x :: y :: rest => x ++ sep ++ pyJoin sep (y :: rest)

/-- Python whitespace characters for `str.split()` with no argument. -/
def splitWs (s : Str) : List Str :=
  (splitOnPred (fun c => decide (c ∈ wsChars)) s).filter (fun t => decide (t ≠ []))

/-- Python string comparison `a <= b` (lexicographic by code point). -/
def lexLe : Str → Str → Bool
  | [], _ => true
  | _ :: _, [] => false
  | a :: as, b :: bs =>
    if a < b then true else if b < a then false else lexLe as bs

/-- The `Prop`-valued order used with Mathlib's `insertionSort`. -/
def strLeR (a b : Str) : Prop := lexLe a b = true

instance : DecidableRel strLeR := fun a b => by unfold strLeR; infer_instance

/-- Python `sorted` on a list of strings (ascending, code-point order). -/
def sortStrs (l : List Str) : List Str := l.insertionSort strLeR

/-- Python `sorted` on a list of integers. -/
def sortInts (l : List Int) : List Int := l.insertionSort (· ≤ ·)

/-- First-match lookup in an insertion-ordered association list (Python
`dict.get(k)` / `dict[k]`). -/
def dGet? {κ ν : Type} [DecidableEq κ] (m : List (κ × ν)) (k : κ) : Option ν :=
  (m.find? (fun kv => decide (kv.1 = k))).map (fun kv => kv.2)

/-- Python `dict.get(k, d)`. -/
def dGetD {κ ν : Type} [DecidableEq κ] (m : List (κ × ν)) (k : κ) (d : ν) : ν :=
  (dGet? m k).getD d

/-- Membership test (Python `k in dict`). -/
def dHas {κ ν : Type} [DecidableEq κ] (m : List (κ × ν)) (k : κ) : Bool :=
  m.any (fun kv => decide (kv.1 = k))

/-- Python `dict[k] = v`: update in place if present (keeping the key's
insertion position), else append. -/
def dSet {κ ν : Type} [DecidableEq κ] (m : List (κ × ν)) (k : κ) (v : ν) :
    List (κ × ν) :=
  if dHas m k then m.map (fun kv => if kv.1 = k then (k, v) else kv)
  else m ++ [(k, v)]

/-- Keys of an association list in insertion order. -/
def dKeys {κ ν : Type} (m : List (κ × ν)) : List κ := m.map (fun kv => kv.1)

/-- Values of an association list in insertion order. -/
def dVals {κ ν : Type} (m : List (κ × ν)) : List ν := m.map (fun kv => kv.2)

/-- Insert into a Python set modelled as an insertion-ordered list. -/
def sInsert {α : Type} [DecidableEq α] (l : List α) (x : α) : List α :=
  if x ∈ l then l else l ++ [x]

/-- The set of elements of a list, keeping first-occurrence order
(a legal realisation of Python `set(...)` iteration). -/
def dedupFirst {α : Type} [DecidableEq α] (l : List α) : List α :=
  l.foldl sInsert []

/-- Python `max(iterable, key=...)`: the first element attaining the maximum
(later elements replace the current best only when strictly greater). -/
def maxByFirst {α : Type} (gt : α → α → Bool) (x : α) (l : List α) : α :=
  l.foldl (fun best y => if gt y best then y else best) x

/-- One inner row of the two-row Levenshtein computation of `levenshtein`:
given the previous row and the left neighbour, produce the tail of the
current row. -/
def levRowGo (sc : Char) : Str → List Nat → Nat → List Nat
  | [], _, _ => []
  | tc :: ts, p0 :: p1 :: ps, left =>
    let cost := if sc = tc then 0 else 1
    let cj := min (left + 1) (min (p1 + 1) (p0 + cost))
    cj :: levRowGo sc ts (p1 :: ps) cj
  | _ :: _, _, _ => []

/-- Current Levenshtein row for source character `sc` at row index `i`. -/
def levRow (sc : Char) (t : Str) (prev : List Nat) (i : Nat) : List Nat :=
  i :: levRowGo sc t prev i

/-- `levenshtein(s, t)` from the source: two-row dynamic programming with
early exits for equal and empty inputs. -/
def levenshtein (s t : Str) : Nat :=
  if s = t then 0
  else if s = [] then t.length
  else if t = [] then s.length
  else
    let init : List Nat := List.range (t.length + 1)
    let fin := s.foldl (fun (pr : List Nat × Nat) sc =>
      (levRow sc t pr.1 (pr.2 + 1), pr.2 + 1)) (init, 0)
    fin.1.getLastD 0

/-- Fuel-driven scan for `jwFind` (fuel `hi - lo`, structurally recursive). -/
def jwFindGo (c : Char) (s2 : Str) (s2m : List Bool) : Nat → Nat → Nat → Option Nat
  | 0, _, _ => none
  | fuel + 1, lo, hi =>
    if lo < hi then
      match s2.get? lo with
      | none => none
      | some ch =>
        if ch = c ∧ s2m.getD lo true = false then some lo
        else jwFindGo c s2 s2m fuel (lo + 1) hi
    else none

/-- First index `j` in `[lo, hi)` with `s2[j] = c` and not yet matched
(the inner loop of the Jaro match pass). -/
def jwFind (c : Char) (s2 : Str) (s2m : List Bool) (lo hi : Nat) : Option Nat :=
  jwFindGo c s2 s2m (hi - lo) lo hi

/-- The greedy match-marking pass of `jaro_winkler`. -/
def jwMatchLoop (s1 s2 : Str) (maxd : Nat) : List Bool × List Bool × Nat :=
  (List.range s1.length).foldl (fun st i =>
    let lo := i - maxd
    let hi := min s2.length (i + maxd + 1)
    match s1.get? i with
    | none => st
    | some c =>
      match jwFind c s2 st.2.1 lo hi with
      | none => st
      | some j => (st.1.set i true, st.2.1.set j true, st.2.2 + 1))
    (List.replicate s1.length false, List.replicate s2.length false, 0)

/-- Characters of `s` whose match flag is set, in order. -/
def matchedChars (s : Str) (m : List Bool) : Str :=
  ((s.zip m).filter (fun pr => pr.2)).map (fun pr => pr.1)

/-- Common-prefix length capped at 4 (the Winkler boost prefix). -/
def countLeadEq : Str → Str → Nat → Nat
  | a :: as, b :: bs, n + 1 => if a = b then 1 + countLeadEq as bs n else 0
  | _, _, _ => 0

/-- `jaro_winkler(s1, s2)` from the source, with float arithmetic modelled
exactly over `ℚ`.  The transposition walk pairs the i-th matched character of
`s1` with the i-th matched character of `s2`, which is what the source's
`k`-pointer loop computes. -/
def jaro_winkler (s1 s2 : Str) : ℚ :=
  if s1 = s2 then 1
  else if s1 = [] ∨ s2 = [] then 0
  else
    let maxd := max s1.length s2.length / 2 - 1
    let res := jwMatchLoop s1 s2 maxd
    let mts := res.2.2
    if mts = 0 then 0
    else
      let t := ((matchedChars s1 res.1).zip (matchedChars s2 res.2.1)).countP
        (fun pr => decide (pr.1 ≠ pr.2))
      let jaro : ℚ := ((mts : ℚ) / s1.length + (mts : ℚ) / s2.length +
        ((mts : ℚ) - (t : ℚ) / 2) / mts) / 3
      let pfx := countLeadEq s1 s2 4
      jaro + (pfx : ℚ) * (1 / 10) * (1 - jaro)

/-! ## Fixed normalization tables (transcribed from the source constants) -/

def EPA_ERROR_DOMAINS : List Str := ([
  "epa.govl", "epa.qov", "epa.qovl", "epa.goy", "epa.aov", "epa.aovl", "epa.gqv", "epa.rov",
  "epa.rovl", "epa.fiov", "epa.giov", "epa.g0v", "ep3.gov", "ep3.govl", "cpa.gov", "cpa.govl",
  "cp3.gov", "epa.qoy", "epa.aoyl", "epa.goyl", "epa.gov1", "epa.go v", "epamail.epa.gov",
  "epa.flov", "epa.gqvl", "epa.qqv", "epa.gq", "epa.govcmai", "epa.eov", "epa.gqyl", "epa.rgv",
  "epa.go", "epa.govemai", "epa.oov", "epa.oovl", "epa..gov", "epa.uo", "epa.qo", "epa.ggy",
  "epa.qqvl", "epa.gqy", "epa.gm", "epa.govt", "epa.ggv", "epa.rqv", "epa.qqyl", "epa.sov",
  "epa.flovl", "epa.rovj", "epa.gqvi", "epa.jtov", "epa.goto", "epa.rqy", "epa.governai",
  "epa.aoy", "epa.ciov", "epa.qoyl", "epa.qovy", "epa.ggyl", "epa.govj", "epa..gqv", "epa.rev",
  "epa.gev", "epa.p.ov", "epa.g.qy", "epa.gow", "epa.qqy", "epa.qol", "-epa.gov", "1epa.gov",
  "1lepa.gov", "11epa.gov", "gepa.gov", "jepa.gov", "epamail.gov", "domino.epamail.epa.gov",
  "usepa.onmicrosoft.com", "cpa.gqy", "cpa.go", "cpa.goy", "cpa.goyl", "cpa.ggy", "cpa.gm",
  "cpa.gg", "cpa.g.qy", "cpa.gcn", "cpa.qov", "cpa.aov", "cp3.govl", "cp3.goy", "cp3.qov",
  ".epa.gov", ".epa.gqy", ".epa.go", ".epa.aov", "ilepa.gov", "ljcpa.gov", "qa.gov", "epama.il"
]).map str

def EMAIL_FIXES : List (Str × Str) := ([
  ("zumwalt@americanchemistry.com", "bryan_zumwalt@americanchemistry.com"),
  ("bryan.ziimwalt@americanchemistry.com", "bryan_zumwalt@americanchemistry.com")
]).map (fun pr => (str pr.1, str pr.2))

def DOMAIN_FIXES : List (Str × Str) := ([
  ("b1m.gov", "blm.gov"),
  ("qmail.com", "gmail.com"),
  ("gmial.com", "gmail.com"),
  ("grnail.com", "gmail.com"),
  ("grnall.com", "gmail.com"),
  ("qrnail.com", "gmail.com"),
  ("gmai1.com", "gmail.com"),
  ("acvpl.org", "acypl.org"),
  ("acypi.org", "acypl.org"),
  ("c3i.org", "cei.org"),
  ("afan.dpa.org", "afandpa.org"),
  ("af3ndpa.org", "afandpa.org"),
  ("iosidoi.gov", "ios.doi.gov"),
  ("ios.doigov", "ios.doi.gov"),
  ("iosidoi.goy", "ios.doi.gov"),
  ("iosdoi.gov", "ios.doi.gov"),
  ("jos.doi.gov", "ios.doi.gov"),
  ("os.doi.gov", "ios.doi.gov"),
  ("io.s.doi.gov", "ios.doi.gov"),
  ("iios.doi.gov", "ios.doi.gov"),
  ("soldoi.gov", "sol.doi.gov"),
  ("lsol.doi.gov", "sol.doi.gov"),
  ("aiaska.gov", "alaska.gov"),
  ("maii.mil", "mail.mil"),
  ("chevrontexaco.com", "chevron.com"),
  ("cheyron.com", "chevron.com"),
  ("westgoy.org", "westgov.org"),
  ("ourpublicseryice.org", "ourpublicservice.org"),
  ("conseryatiye.org", "conservative.org"),
  ("conseryationfund.org", "conservationfund.org"),
  ("conseryamerica.org", "conservamerica.org"),
  ("yenable.com", "venable.com"),
  ("yerizon.net", "verizon.net"),
  ("yolyo.com", "volvo.com"),
  ("yalero.com", "valero.com"),
  ("yocgen.com", "vocgen.com"),
  ("yictoryenterprises.com", "victoryenterprises.com"),
  ("yisitokc.com", "visitokc.com"),
  ("liyingstongroupdc.com", "livingstongroupdc.com"),
  ("liyingstongroupdc.co", "livingstongroupdc.com"),
  ("hoganloyells.com", "hoganlovells.com"),
  ("hoganloyeiis.com", "hoganlovells.com"),
  ("hoganjoyells.com", "hoganlovells.com"),
  ("nayigatorsglobal.com", "navigatorsglobal.com"),
  ("gayelresources.com", "gavelresources.com"),
  ("coloradoliyestock.org", "coloradolivestock.org"),
  ("colostate.edu", "colostate.edu"),
  ("hoydengrayassociates.com", "boydengrayassociates.com"),
  ("hhqyentures.com", "hhqventures.com"),
  ("hewelleyents.com", "hewellevents.com"),
  ("toxseryices.com", "toxservices.com"),
  ("public.goydeliyery.com", "public.govdelivery.com"),
  ("seryice.goydeliyery.com", "service.govdelivery.com"),
  ("bcdtrayel.com", "bcdtravel.com"),
  ("creatiye-mill.com", "creative-mill.com"),
  ("inyariantgr.com", "invariantgr.com"),
  ("dailycallemewsfoundation.org", "dailycallernewsfoundation.org"),
  ("bockomygroup.com", "bockornygroup.com"),
  ("hockomygroup.com", "bockornygroup.com"),
  ("bqckomygrqup.com", "bockornygroup.com"),
  ("bockomygroup.co", "bockornygroup.com"),
  ("bockomygrotip.com", "bockornygroup.com"),
  ("southemco.com", "southernco.com"),
  ("sidiey.com", "sidley.com"),
  ("sidiey.co", "sidley.com"),
  ("hollandliart.com", "hollandhart.com"),
  ("honandhart.com", "hollandhart.com"),
  ("hqllandhart.com", "hollandhart.com"),
  ("nelsonmiillins.com", "nelsonmullins.com"),
  ("nelsonmullms.com", "nelsonmullins.com"),
  ("aiuminum.org", "aluminum.org"),
  ("aiphq.org", "afphq.org"),
  ("afpni.org", "afphq.org"),
  ("cargili.com", "cargill.com"),
  ("cargin.com", "cargill.com"),
  ("conocophiliips.com", "conocophillips.com"),
  ("conocophijlips.com", "conocophillips.com"),
  ("conocophiglips.com", "conocophillips.com"),
  ("conocophihips.com", "conocophillips.com"),
  ("conocophiljips.com", "conocophillips.com"),
  ("conocoohiilids.co", "conocophillips.com"),
  ("conocophiilips.com", "conocophillips.com"),
  ("conocophiyips.co", "conocophillips.com"),
  ("bqeing.com", "boeing.com"),
  ("archcoai.com", "archcoal.com"),
  ("consoleiiergy.com", "consolenergy.com"),
  ("gmaii.com", "gmail.com"),
  ("listserye.api.org", "listserv.api.org"),
  ("alphagrpdc.com", "alphagrpdc.com"),
  ("aiphagrpdc.com", "alphagrpdc.com"),
  ("herifage.org", "heritage.org"),
  ("hcritage.org", "heritage.org"),
  ("hentage.org", "heritage.org"),
  ("americanchemisfry.com", "americanchemistry.com"),
  ("americanchcmisry.com", "americanchemistry.com"),
  ("americancheniistry.com", "americanchemistry.com"),
  ("amerieanchemistry.com", "americanchemistry.com"),
  ("americanchemistry.coni", "americanchemistry.com"),
  ("americanchemistfy.co", "americanchemistry.com"),
  ("amerlearichemistry.com", "americanchemistry.com"),
  ("americaiichemistry.com", "americanchemistry.com"),
  ("crqplifeamerica.org", "croplifeamerica.org"),
  ("cropnfeamerica.org", "croplifeamerica.org"),
  ("cropiifeamerica.org", "croplifeamerica.org"),
  ("croplifeameriea.org", "croplifeamerica.org"),
  ("croplifeamenca.org", "croplifeamerica.org"),
  ("cropisfeaniersca.org", "croplifeamerica.org"),
  ("crqpiifearoeriea.org", "croplifeamerica.org"),
  ("crophfeamerica.org", "croplifeamerica.org"),
  ("croplifearoerica.org", "croplifeamerica.org"),
  ("cfopiifeamefica.org", "croplifeamerica.org"),
  ("cfqplifeamerica.org", "croplifeamerica.org"),
  ("cropkfeamerica.oig", "croplifeamerica.org"),
  ("cropgsfeamerica.org", "croplifeamerica.org"),
  ("crqpsifeamenea.org", "croplifeamerica.org"),
  ("crqpjifeameriea.org", "croplifeamerica.org"),
  ("cropisfeamersca.org", "croplifeamerica.org"),
  ("cropsifeaniefica.org", "croplifeamerica.org"),
  ("cropnfeanierica.orr", "croplifeamerica.org"),
  ("cropiifeamenca.org", "croplifeamerica.org"),
  ("ge.co", "ge.com"),
  ("cbsnews.co", "cbsnews.com"),
  ("socma.co", "socma.com"),
  ("nahb.ofg", "nahb.org"),
  ("nahb.grg", "nahb.org"),
  ("lung.ofg", "lung.org"),
  ("nam.ofg", "nam.org"),
  ("okfb.ofg", "okfb.org"),
  ("awwa.ofg", "awwa.org"),
  ("qkfb.org", "okfb.org"),
  ("growtheneray.org", "growthenergy.org"),
  ("nohle.org", "noble.org"),
  ("sallt.com", "salt.com"),
  ("loyes.com", "loves.com"),
  ("miningamerica.org", "miningamerica.org"),
  ("dowcoming.com", "dowcorning.com"),
  ("chsnews.com", "cbsnews.com"),
  ("hsph.haryard.edu", "hsph.harvard.edu"),
  ("wms-jen.com", "wms-jen.com"),
  ("lawa6o.com", "lawa60.com"),
  ("72ostrategies.com", "720strategies.com"),
  ("gps-5o.com", "gps-50.com"),
  ("cfaeorp.com", "cfacorp.com"),
  ("painf.org", "paint.org"),
  ("eaest.com", "east.com"),
  ("dorox.com", "dorox.com"),
  ("dqw.com", "dow.com")
]).map (fun pr => (str pr.1, str pr.2))

def DOMAIN_OCR_CHAR_MAP : List (Str × Str) := ([
  ("rn", "m"),
  ("1", "l"),
  ("3", "a"),
  ("0", "o"),
  ("v", "y")
]).map (fun pr => (str pr.1, str pr.2))

def LOCAL_OCR_CHAR_MAP : List (Str × Str) := ([
  ("ffl", "m"),
  ("ffi", "n"),
  ("rn", "m"),
  ("ii", "n"),
  ("v", "y"),
  ("1", "l"),
  ("0", "o"),
  ("3", "a")
]).map (fun pr => (str pr.1, str pr.2))

def BAD_SUFFIX_TABLE : List (Str × Str) := ([
  (".qov", ".gov"),
  (".aov", ".gov"),
  (".goy", ".gov"),
  (".rov", ".gov"),
  (".sov", ".gov"),
  (".eov", ".gov"),
  (".oov", ".gov"),
  (".fiov", ".gov"),
  (".gow", ".gov"),
  (".gcn", ".gov"),
  (".gq", ".gov"),
  (".gqy", ".gov"),
  (".ggy", ".gov"),
  (".gg", ".gov"),
  (".eom", ".com"),
  (".corn", ".com"),
  (".coml", ".com"),
  (".comi", ".com"),
  (".orq", ".org"),
  (".orql", ".org"),
  (".ora", ".org"),
  (".ore", ".org"),
  (".orgl", ".org"),
  (".edul", ".edu")
]).map (fun pr => (str pr.1, str pr.2))

def LASTNAME_FIRST_DOMAINS : List Str := ([
  "epa.gov"
]).map str

def GENERIC_LOCALS : List Str := ([
  "info", "admin", "support", "contact", "office", "mail", "webmaster", "sales", "noreply",
  "help", "service", "news", "media", "press", "marketing", "hr", "legal", "compliance", "jobs",
  "careers", "events", "feedback", "billing", "security", "postmaster", "abuse", "root", "team",
  "hello", "general", "inquiries", "membership", "scheduling", "requests", "records", "orders",
  "alerts", "comments", "updates", "planning", "operations", "regulation", "program", "intern",
  "counsel", "director", "chairman", "editor", "congress"
]).map str

def COMMON_FIRST_NAMES : List Str := ([
  "aaron", "adam", "adrian", "alan", "albert", "alex", "alexander", "alfred", "alice", "alicia",
  "alison", "allen", "allison", "amanda", "amber", "amy", "andrea", "andrew", "angela", "ann",
  "anna", "anne", "annie", "anthony", "april", "arthur", "ashley", "barbara", "barry",
  "benjamin", "bernard", "beth", "bethany", "betty", "beverly", "bill", "billy", "blake",
  "bobby", "bonnie", "brad", "bradley", "brenda", "brendan", "brent", "brett", "brian",
  "bridget", "brittany", "brook", "brooke", "bruce", "bryan", "calvin", "cameron", "carl",
  "carol", "caroline", "carolyn", "catherine", "chad", "charles", "charlotte", "cheryl",
  "chris", "christian", "christina", "christine", "christopher", "cindy", "claire", "clarence",
  "clark", "claudia", "clifford", "clint", "cody", "cole", "colin", "connie", "connor", "corey",
  "craig", "crystal", "cynthia", "dale", "dallas", "dana", "daniel", "danny", "darren", "dave",
  "david", "dawn", "dean", "debbie", "deborah", "debra", "denise", "dennis", "derek", "derrick",
  "diana", "diane", "don", "donald", "donna", "doris", "dorothy", "doug", "douglas", "drew",
  "dustin", "dylan", "earl", "eddie", "edward", "eileen", "elaine", "elizabeth", "ellen",
  "emily", "emma", "eric", "erica", "erin", "ernest", "eugene", "eva", "evan", "evelyn",
  "faith", "florence", "frances", "francis", "frank", "fred", "frederick", "gabriel", "gary",
  "gavin", "gene", "george", "gerald", "gina", "glen", "glenn", "gloria", "gordon", "grace",
  "grant", "greg", "gregory", "gwen", "hannah", "harold", "harry", "harvey", "heather", "helen",
  "henry", "herbert", "holly", "howard", "hunter", "irene", "isaac", "ivan", "jack", "jackie",
  "jacob", "jacqueline", "james", "jamie", "jane", "janet", "janice", "jared", "jasmine",
  "jason", "jean", "jeff", "jeffrey", "jennifer", "jenny", "jeremy", "jerry", "jesse",
  "jessica", "jill", "jimmy", "joan", "joanne", "jocelyn", "jody", "joel", "john", "johnny",
  "jonathan", "jordan", "joseph", "joshua", "joyce", "judith", "judy", "julia", "julian",
  "julie", "justin", "karen", "karl", "kate", "katherine", "kathleen", "kathryn", "kathy",
  "katie", "keith", "kelly", "ken", "kenneth", "kevin", "kimberly", "kirk", "kristen",
  "kristin", "kristina", "kurt", "kyle", "lance", "larry", "laura", "lauren", "laurie",
  "lawrence", "leah", "lee", "leon", "leonard", "leslie", "lillian", "linda", "lindsay", "lisa",
  "lois", "loretta", "lori", "louis", "louise", "lucas", "luke", "lynn", "madison", "marc",
  "marcus", "margaret", "maria", "marie", "marilyn", "marion", "mark", "marsha", "martha",
  "martin", "marvin", "mary", "matt", "matthew", "maureen", "max", "megan", "melissa",
  "michael", "michele", "michelle", "mike", "miles", "miranda", "misty", "mitchell", "molly",
  "monica", "morgan", "morris", "nancy", "natalie", "nathan", "neil", "nelson", "nicholas",
  "nicole", "noah", "norma", "norman", "oliver", "olivia", "oscar", "owen", "paige", "pamela",
  "patricia", "patrick", "paul", "paula", "peggy", "penny", "peter", "philip", "phillip",
  "phyllis", "rachel", "ralph", "randy", "raymond", "rebecca", "regina", "renee", "rhonda",
  "richard", "rick", "rita", "robert", "robin", "rodney", "roger", "roland", "ronald", "rose",
  "ross", "roxanne", "roy", "ruby", "russell", "ruth", "ryan", "sabrina", "sally", "samantha",
  "samuel", "sandra", "sandy", "sara", "sarah", "scott", "sean", "seth", "shane", "shannon",
  "sharon", "sheila", "shelley", "sherry", "shirley", "sophia", "stacey", "stacy", "stanley",
  "stefanie", "stephanie", "stephen", "steve", "steven", "stuart", "susan", "suzanne", "sydney",
  "sylvia", "tamara", "tammy", "tanya", "tara", "taylor", "teresa", "terri", "terry", "thelma",
  "theresa", "thomas", "tiffany", "timothy", "tina", "todd", "tommy", "tony", "tracy", "travis",
  "trevor", "troy", "tyler", "valerie", "vanessa", "vernon", "veronica", "vicki", "victoria",
  "vincent", "virginia", "vivian", "wade", "walter", "wanda", "warren", "wayne", "wendy",
  "wesley", "whitney", "william", "willie", "yolanda", "zachary"
]).map str

def BUSINESS_WORDS : List Str := ([
  "press", "scheduling", "requests", "records", "planning", "counsel", "director", "manager",
  "editor", "congress", "intern", "orders", "updates", "alerts", "comments", "regulation",
  "regulatory", "operations", "program", "executive", "chairman", "president", "secretary",
  "treasurer", "governor", "senator", "representative"
]).map str


/-! ## `MAILTO_RE`: garbled `mailto:` prefix matcher (anchored alternation) -/

/-- One single-character regex item: a literal or a character class. -/
inductive RItem
  | lit (c : Char)
  | cls (cs : List Char)

/-- Does the character satisfy the item? -/
def itemOk : RItem → Char → Bool
  | .lit d, c => decide (c = d)
  | .cls ds, c => decide (c ∈ ds)

/-- Match a sequence of single-character items, returning the remainder. -/
def matchItems : List RItem → Str → Option Str
  | [], s => some s
  | _ :: _, [] => none
  | it :: its, c :: cs => if itemOk it c then matchItems its cs else none

/-- Literal items from a string. -/
def lits (s : String) : List RItem := (str s).map RItem.lit

/-- One alternative of `MAILTO_RE`: an optional `[rfnc]` prefix (greedy with
backtracking, as in the regex engine) followed by the items; the trailing
`\s*` is consumed by the caller. -/
structure MAlt where
  opt : Bool
  items : List RItem

/-- The class `[rfnc]` of stray prefix characters. -/
def rfncCls : List Char := ['r', 'f', 'n', 'c']

/-- The class `[i1l:;c]` of garbled colons. -/
def colonCls : List Char := ['i', '1', 'l', ':', ';', 'c']

/-- The class `[il1]`. -/
def il1Cls : List Char := ['i', 'l', '1']

/-- The alternatives of `MAILTO_RE`, in source order (the regex engine tries
them left to right and keeps the first that matches). -/
def MAILTO_ALTS : List MAlt :=
  [ ⟨true, lits ("mailto") ++ [RItem.cls colonCls]⟩,
    ⟨true, lits ("rnailto") ++ [RItem.cls colonCls]⟩,
    ⟨true, lits ("rnai") ++ [RItem.cls il1Cls] ++ lits ("to") ++ [RItem.cls colonCls]⟩,
    ⟨true, lits ("mai") ++ [RItem.cls il1Cls] ++ lits ("to") ++ [RItem.cls colonCls]⟩,
    ⟨false, lits ("mail.to") ++ [RItem.cls colonCls]⟩,
    ⟨true, lits ("mailtcr")⟩,
    ⟨true, lits ("mai") ++ [RItem.cls il1Cls] ++ lits ("sto") ++ [RItem.cls colonCls]⟩,
    ⟨false, [RItem.cls ['1', 'l']] ++ lits ("to") ++ [RItem.cls colonCls]⟩ ]

/-- Match one alternative at the start of `s`, returning the remainder after
the matched span including the trailing `\s*`. -/
def altMatch (a : MAlt) (s : Str) : Option Str :=
  let base := fun (t : Str) => matchItems a.items t
  let core :=
    if a.opt then
      match s with
      | c :: cs =>
        if decide (c ∈ rfncCls) then
          match base cs with
          | some r => some r
          | none => base s
        else base s
      | [] => base s
    else base s
  core.map (fun r => r.dropWhile (fun c => decide (c ∈ wsChars)))

/-- `MAILTO_RE.sub('', s)`: the regex is anchored, so at most one match is
removed, together with its trailing whitespace. -/
def mailtoSub (s : Str) : Str :=
  match MAILTO_ALTS.findSome? (fun a => altMatch a s) with
  | some rem => rem
  | none => s

/-! ## Layer 1: `structural_cleanup` -/

/-- Fixpoint of the source's `while '..' in s: s = s.replace('..', '.')`
loop: every run of dots collapses to a single dot. -/
def collapseDots : Str → Str
  | [] => []
  | [c] => [c]
  | c1 :: c2 :: r =>
    if c1 = '.' ∧ c2 = '.' then collapseDots (c2 :: r)
    else c1 :: collapseDots (c2 :: r)

/-- `structural_cleanup(email)` from the source. -/
def structural_cleanup (email : Str) : Str :=
  let e1 := pyLower (pyStrip email)
  let e2 := mailtoSub e1
  let e3 := pyStrip (stripChars ['<', '>'] e2)
  if hasAt e3 = false then e3
  else
    match splitFirst '@' e3 with
    | none => e3
    | some (lo, dom) =>
      let lo1 := stripChars ['.'] lo
      let lo2 := replaceL ['-'] ['.'] lo1
      let lo3 := collapseDots lo2
      let dom1 := collapseDots dom
      let dom2 := stripChars ['.', '-'] dom1
      let result := if lo3 ≠ [] ∧ dom2 ≠ [] then lo3 ++ '@' :: dom2 else e3
      match dGet? EMAIL_FIXES result with
      | some fix => fix
      | none => result

/-! ## Layer 2: `normalize_domain` -/

/-- Remove all spaces (Python `s.replace(' ', '')`). -/
def removeSpaces (s : Str) : Str := s.filter (fun c => decide (c ≠ ' '))

/-- Split on dots, keeping empty labels. -/
def splitDots (s : Str) : List Str := splitOnPred (fun c => decide (c = '.')) s

/-- Join labels with dots. -/
def joinDots (l : List Str) : Str := pyJoin ['.'] l

/-- Python `suffix in s` suffix test. -/
def endsWithS (suf s : Str) : Bool := suf.isSuffixOf s

/-- Python `s.rsplit('.', 1)[-1]`: the part after the last dot. -/
def lastLabel (s : Str) : Str :=
  (s.reverse.takeWhile (fun c => decide (c ≠ '.'))).reverse

/-- The dot-collapse heuristic of `normalize_domain` (merge short trailing
labels that look like a split TLD). -/
def dotCollapse (domain : Str) : Str :=
  let parts := splitDots domain
  if parts.length ≥ 3 then
    let p1 := parts.getLastD []
    let p2 := (parts.take (parts.length - 1)).getLastD []
    let lastTwo := p2 ++ p1
    if p2.length ≤ 2 ∧ p1.length ≤ 3 ∧ lastTwo.length ≤ 4 then
      joinDots (parts.take (parts.length - 2)) ++ '.' :: lastTwo
    else if parts.length ≥ 4 ∧
        (parts.drop (parts.length - 3)).all (fun p => decide (p.length ≤ 2)) then
      let joined := (parts.drop (parts.length - 3)).foldl (· ++ ·) []
      if joined.length ≤ 5 then
        joinDots (parts.take (parts.length - 3)) ++ '.' :: joined
      else domain
    else domain
  else domain

/-- One pass of the generic suffix-fix loop, returning the new domain and
whether anything changed in this pass. -/
def suffixPass (domain : Str) : Str × Bool :=
  let st1 :=
    if endsWithS (str (".govl")) domain ∨ endsWithS (str (".gov1")) domain ∨
        endsWithS (str (".govj")) domain ∨ endsWithS (str (".govi")) domain then
      (domain.take (domain.length - 1), true)
    else (domain, false)
  let st2 :=
    match BAD_SUFFIX_TABLE.find? (fun pr => endsWithS pr.1 st1.1) with
    | some pr => (st1.1.take (st1.1.length - pr.1.length) ++ pr.2, true)
    | none => st1
  let st3 :=
    if st2.2 = false ∧ endsWithS (str (".go")) st2.1 ∧
        ¬ endsWithS (str (".go.")) st2.1 then
      let host := st2.1.take (st2.1.length - 3)
      if host ≠ [] ∧ (lastLabel host).length ≤ 5 then (st2.1 ++ ['v'], true)
      else st2
    else st2
  let st4 :=
    if st3.2 = false ∧ st3.1.length > 4 then
      let tld := lastLabel st3.1
      let lastOk : Bool :=
        match tld.getLast? with
        | some c => decide (c = 'l' ∨ c = '1' ∨ c = 'j')
        | none => false
      if lastOk = true ∧ tld ≠ str ("html") ∧ tld ≠ str ("mil") then
        (st3.1.take (st3.1.length - 1), true)
      else st3
    else st3
  st4

/-- The source's `for _ in range(3)` suffix-fix loop with early exit. -/
def suffixLoop (domain : Str) : Str :=
  let r1 := suffixPass domain
  if r1.2 = false then r1.1
  else
    let r2 := suffixPass r1.1
    if r2.2 = false then r2.1
    else (suffixPass r2.1).1

/-- Apply `DOMAIN_OCR_CHAR_MAP` to every label except the TLD, substitutions
in dict insertion order. -/
def applyDomainOcr (domain : Str) : Str :=
  let parts := splitDots domain
  if parts.length ≥ 2 then
    let n := parts.length
    joinDots (parts.mapIdx (fun i p =>
      if i < n - 1 then
        DOMAIN_OCR_CHAR_MAP.foldl (fun q pr => replaceL pr.1 pr.2 q) p
      else p))
  else domain

/-- `_is_likely_epa(domain)` from the source. -/
def is_likely_epa (domain : Str) : Bool :=
  if endsWithS (str (".gov")) domain = false then false
  else
    let host := domain.take (domain.length - 4)
    if host = [] then false
    else if host.length = 3 then decide (levenshtein host (str ("epa")) ≤ 1)
    else if host.length = 4 then
      (List.range 4).any (fun i =>
        decide (levenshtein (host.take i ++ host.drop (i + 1)) (str ("epa")) ≤ 1))
    else false

/-- `normalize_domain(domain)` from the source. -/
def normalize_domain (domain0 : Str) : Str :=
  let d1 := removeSpaces (stripChars ['.', '-'] (pyLower domain0))
  if d1 ∈ EPA_ERROR_DOMAINS then str ("epa.gov")
  else if d1 = str ("iepa.gov") then d1
  else if d1 = str ("calepa.ca.gov") then d1
  else
    match dGet? DOMAIN_FIXES d1 with
    | some fix => fix
    | none =>
      let d2 := dotCollapse d1
      if d2 ∈ EPA_ERROR_DOMAINS then str ("epa.gov")
      else
        let d3 := suffixLoop d2
        if d3 ∈ EPA_ERROR_DOMAINS then str ("epa.gov")
        else
          match dGet? DOMAIN_FIXES d3 with
          | some fix => fix
          | none =>
            let d4 := applyDomainOcr d3
            if d4 ∈ EPA_ERROR_DOMAINS then str ("epa.gov")
            else
              match dGet? DOMAIN_FIXES d4 with
              | some fix => fix
              | none => if is_likely_epa d4 then str ("epa.gov") else d4

/-- `apply_domain_normalization(email)` from the source. -/
def apply_domain_normalization (email : Str) : Str :=
  if hasAt email = false then email
  else
    match splitFirst '@' email with
    | none => email
    | some (lo, dom) => lo ++ '@' :: normalize_domain dom

/-! ## Layer 3: local-part OCR normalization -/

/-- `sorted(LOCAL_OCR_CHAR_MAP.items(), key=lambda x: -len(x[0]))`: a stable
descending sort by pattern length. -/
def LOCAL_OCR_SORTED : List (Str × Str) :=
  LOCAL_OCR_CHAR_MAP.insertionSort (fun a b => b.1.length ≤ a.1.length)

/-- `ocr_normalize_local(local)` from the source. -/
def ocr_normalize_local (lo : Str) : Str :=
  LOCAL_OCR_SORTED.foldl (fun res pr => replaceL pr.1 pr.2 res) lo

/-- Is the character one of the local-part separators `[._-]`? -/
def isSepC (c : Char) : Bool := decide (c = '.' ∨ c = '_' ∨ c = '-')

/-- `re.split(r'[._\-]', s)`. -/
def splitSeps (s : Str) : List Str := splitOnPred isSepC s

/-- `canonicalize_local(local)` from the source. -/
def canonicalize_local (lo : Str) : Str :=
  let parts := (splitSeps lo).filter (fun p => decide (1 < p.length))
  if parts.length ≥ 2 then pyJoin ['.'] (sortStrs parts) else lo

/-- `apply_local_ocr_normalization(email)` from the source. -/
def apply_local_ocr_normalization (email : Str) : Str :=
  if hasAt email = false then email
  else
    match splitFirst '@' email with
    | none => email
    | some (lo, dom) => canonicalize_local (ocr_normalize_local lo) ++ '@' :: dom

/-- `re.split(r'([._])', s)`: split on `.` and `_` keeping the separators as
their own pieces. -/
def splitKeepSeps : Str → List Str
  | [] => [[]]
  | c :: cs =>
    match splitKeepSeps cs with
    | [] => [[]]
    | t :: ts =>
      if c = '.' ∨ c = '_' then [] :: [c] :: t :: ts else (c :: t) :: ts

/-- One `re.sub(r'(?<=[a-z])d(?=[a-z])', r, s)` pass: the lookarounds inspect
the original string, so this is a positional map. -/
def subSurroundGo (d r : Char) : Option Char → Str → Str
  | _, [] => []
  | prev, c :: rest =>
    let nextOk := match rest.head? with | some nc => isLowerAZ nc | none => false
    let prevOk := match prev with | some pc => isLowerAZ pc | none => false
    (if c = d ∧ prevOk = true ∧ nextOk = true then r else c) ::
      subSurroundGo d r (some c) rest

/-- Replace digit `d` by `r` wherever it sits between lowercase letters. -/
def subSurround (d r : Char) (s : Str) : Str := subSurroundGo d r none s

/-- One `re.sub(r'^d(?=[a-z]{3,})', r, s)` pass. -/
def subLead (d r : Char) (s : Str) : Str :=
  match s with
  | c :: c1 :: c2 :: c3 :: rest =>
    if c = d ∧ isLowerAZ c1 = true ∧ isLowerAZ c2 = true ∧ isLowerAZ c3 = true then
      r :: c1 :: c2 :: c3 :: rest
    else c :: c1 :: c2 :: c3 :: rest
  | s => s

/-- The per-piece digit cleanup of `ocr_clean_local_for_display`. -/
def displayFixPart (part : Str) : Str :=
  if part = ['.'] ∨ part = ['_'] then part
  else if part ≠ [] ∧ part.all isDigitC then part
  else
    let r1 := subSurround '1' 'l' part
    let r2 := subSurround '0' 'o' r1
    let r3 := subSurround '3' 'e' r2
    let r4 := subSurround '8' 'b' r3
    let r5 := subSurround '5' 's' r4
    let r6 := subSurround '6' 'b' r5
    let r7 := subSurround '2' 'z' r6
    let r8 := subLead '3' 'e' r7
    let r9 := subLead '1' 'l' r8
    let r10 := subLead '0' 'o' r9
    let r11 := subLead '6' 'b' r10
    subLead '5' 's' r11

/-- `ocr_clean_local_for_display(local)` from the source. -/
def ocr_clean_local_for_display (lo : Str) : Str :=
  ((splitKeepSeps lo).map displayFixPart).foldl (· ++ ·) []

/-! ## Data model -/

/-- An input node record.  Fields are total in the model: a record missing an
optional counter is represented with the explicit default `0` (resp. `[]`,
empty string), matching the source's `.get(..., default)` reads. -/
structure Node where
  id : Str
  name : Str
  domain : Str
  sent : Nat
  received : Nat
  count : Nat
  years : List Int
  domain_count : Nat
deriving DecidableEq, Repr

/-- An edge record (also the shape of merged output edges). -/
structure Edge where
  source : Str
  target : Str
  weight : Nat
  years : List Int
  doc_ids : List Str
deriving DecidableEq, Repr

/-- An output node: an input node shape plus the `aliases` list. -/
structure MergedNode where
  id : Str
  name : Str
  domain : Str
  sent : Nat
  received : Nat
  count : Nat
  years : List Int
  domain_count : Nat
  aliases : List Str
deriving DecidableEq, Repr

/-- One entry of `stats.top_domains`. -/
structure TopDomain where
  domain : Str
  count : Nat
deriving DecidableEq, Repr

/-- The recomputed `stats` object. -/
structure Stats where
  nodes : Nat
  edges : Nat
  top_domains : List TopDomain
deriving DecidableEq, Repr

/-- The pure output of one pipeline run. -/
structure DedupOutput where
  stats : Stats
  nodes : List MergedNode
  edges : List Edge
deriving DecidableEq, Repr

/-! ## Layer 3b: `join_split_local_matches` -/

/-- The local part of a canonical (Python `c.split('@', 1)[0]`). -/
def canonLocal (c : Str) : Str :=
  match splitFirst '@' c with
  | some pr => pr.1
  | none => c

/-- Build the per-domain index of 2-part canonicals:
`sorted_tuple -> canonical`. -/
def twoPartBuild (vals : List Str) : List (Str × List (List Str × Str)) :=
  vals.foldl (fun acc canon =>
    if hasAt canon = false then acc
    else
      match splitFirst '@' canon with
      | none => acc
      | some (lo, dom) =>
        let parts := (splitSeps lo).filter (fun p => decide (1 < p.length))
        if parts.length = 2 then
          dSet acc dom (dSet (dGetD acc dom []) (sortStrs parts) canon)
        else acc) []

/-- Candidate rejoinings of a ≥3-token local: the six ordered pair
concatenations for exactly 3 tokens, all consecutive splits for 4+. -/
def joinCandidates (orig_parts : List Str) : List (Str × Str) :=
  match orig_parts with
  | [a, b, c] =>
    [(a ++ b, c), (b ++ a, c), (a ++ c, b), (c ++ a, b), (b ++ c, a), (c ++ b, a)]
  | _ =>
    ((List.range orig_parts.length).drop 1).map (fun k =>
      ((orig_parts.take k).foldl (· ++ ·) [], (orig_parts.drop k).foldl (· ++ ·) []))

/-- Scan the candidates in order, trying the OCR-normalized key first and the
raw key second, stopping at the first target different from `canon`. -/
def findJoinTarget (known : List (List Str × Str)) (canon : Str) :
    List (Str × Str) → Option Str
  | [] => none
  | (left, right) :: rest =>
    if left.length < 2 ∨ right.length < 2 then findJoinTarget known canon rest
    else
      let key1 := sortStrs [ocr_normalize_local left, ocr_normalize_local right]
      let key2 := sortStrs [left, right]
      match dGet? known key1 with
      | some target =>
        if target ≠ canon then some target
        else
          match dGet? known key2 with
          | some t2 =>
            if t2 ≠ canon then some t2 else findJoinTarget known canon rest
          | none => findJoinTarget known canon rest
      | none =>
        match dGet? known key2 with
        | some t2 =>
          if t2 ≠ canon then some t2 else findJoinTarget known canon rest
        | none => findJoinTarget known canon rest

/-- `join_split_local_matches(alias_map, all_original_ids)` from the source. -/
def join_split_local_matches (alias_map : List (Str × Str))
    (all_original_ids : List Str) : List (Str × Str) :=
  let two_part := twoPartBuild (dedupFirst (dVals alias_map))
  (all_original_ids.foldl (fun (st : List (Str × Str) × List Str) orig_id =>
    let canon := dGetD alias_map orig_id orig_id
    if dHas st.1 canon ∨ canon ∈ st.2 then st
    else
      let seen2 := st.2 ++ [canon]
      if hasAt canon = false then (st.1, seen2)
      else
        match splitFirst '@' canon with
        | none => (st.1, seen2)
        | some (_, dom) =>
          match dGet? two_part dom with
          | none => (st.1, seen2)
          | some known =>
            if known = [] then (st.1, seen2)
            else
              let cleaned := apply_domain_normalization (structural_cleanup orig_id)
              if hasAt cleaned = false then (st.1, seen2)
              else
                match splitFirst '@' cleaned with
                | none => (st.1, seen2)
                | some (ol, _) =>
                  let orig_parts :=
                    (splitSeps ol).filter (fun p => decide (1 < p.length))
                  if orig_parts.length < 3 then (st.1, seen2)
                  else
                    match findJoinTarget known canon (joinCandidates orig_parts) with
                    | some target => (dSet st.1 canon target, seen2)
                    | none => (st.1, seen2)) ([], [])).1

/-! ## Layer 3c: `prefix_strip_matches` -/

/-- Inner scan over the known name fragments for one token of the local part;
`sufMode = true` is the ends-with pass, `false` the starts-with pass. -/
def stripSearchKnown (sufMode : Bool) (allParts : List Str) (i : Nat)
    (part : Str) (ktp : List (List Str × Str)) (canon : Str) :
    List Str → Option Str
  | [] => none
  | kp :: rest =>
    if kp.length < 3 then stripSearchKnown sufMode allParts i part ktp canon rest
    else if (if sufMode then kp.isSuffixOf part else kp.isPrefixOf part) ∧
        part.length > kp.length then
      let remaining := (allParts.take i ++ [kp] ++ allParts.drop (i + 1)).filter
        (fun p => decide (1 < p.length))
      if remaining.length = 2 then
        match dGet? ktp (sortStrs remaining) with
        | some target =>
          if target ≠ canon then some target
          else stripSearchKnown sufMode allParts i part ktp canon rest
        | none => stripSearchKnown sufMode allParts i part ktp canon rest
      else stripSearchKnown sufMode allParts i part ktp canon rest
    else stripSearchKnown sufMode allParts i part ktp canon rest

/-- Walk the tokens checking each for a known fragment at its end and then at
its start, stopping at the first merge found. -/
def stripSearchParts (allParts : List Str) (known_list : List Str)
    (ktp : List (List Str × Str)) (canon : Str) : Nat → List Str → Option Str
  | _, [] => none
  | i, part :: rest =>
    match stripSearchKnown true allParts i part ktp canon known_list with
    | some t => some t
    | none =>
      match stripSearchKnown false allParts i part ktp canon known_list with
      | some t => some t
      | none => stripSearchParts allParts known_list ktp canon (i + 1) rest

/-- `prefix_strip_matches(alias_map)` from the source. -/
def prefix_strip_matches (alias_map : List (Str × Str)) : List (Str × Str) :=
  let vals := dedupFirst (dVals alias_map)
  let built := vals.foldl
    (fun (acc : List (Str × List Str) × List (Str × List (List Str × Str))) canon =>
      if hasAt canon = false then acc
      else
        match splitFirst '@' canon with
        | none => acc
        | some (lo, dom) =>
          let parts := (splitSeps lo).filter (fun p => decide (1 < p.length))
          if parts.length = 2 then
            (dSet acc.1 dom (parts.foldl sInsert (dGetD acc.1 dom [])),
             dSet acc.2 dom (dSet (dGetD acc.2 dom []) (sortStrs parts) canon))
          else acc) ([], [])
  vals.foldl (fun merges canon =>
    if dHas merges canon then merges
    else if hasAt canon = false then merges
    else
      match splitFirst '@' canon with
      | none => merges
      | some (lo, dom) =>
        match dGet? built.1 dom with
        | none => merges
        | some known_list =>
          if known_list = [] then merges
          else
            let ktp := dGetD built.2 dom []
            let parts := (splitSeps lo).filter (fun p => decide (p ≠ []))
            if parts.length < 2 then merges
            else
              match stripSearchParts parts known_list ktp canon 0 parts with
              | some target => dSet merges canon target
              | none => merges) []

/-! ## Union-Find (`_UnionFind` from the source)

Path compression is omitted from the model: it changes neither the roots nor
the ranks nor the weights, so `find`, `union` and `groups` agree with the
source. -/

structure UnionFind where
  parent : List (Str × Str)
  rank : List (Str × Nat)
  weight : List (Str × Nat)
deriving Repr

/-- `add(x, count)`. -/
def ufAdd (uf : UnionFind) (x : Str) (count : Nat) : UnionFind :=
  if dHas uf.parent x then uf
  else ⟨uf.parent ++ [(x, x)], uf.rank ++ [(x, 0)], uf.weight ++ [(x, count)]⟩

/-- Root-chasing with fuel (the parent map is always a forest, so the fuel
`|parent|` is never exhausted on reachable states). -/
def ufFindFuel : Nat → List (Str × Str) → Str → Str
  | 0, _, x => x
  | fuel + 1, par, x =>
    let p := dGetD par x x
    if p = x then x else ufFindFuel fuel par p

/-- `find(x)` (root only; compression does not change it). -/
def ufFind (uf : UnionFind) (x : Str) : Str :=
  ufFindFuel uf.parent.length uf.parent x

/-- `union(a, b)`: union by rank, keeping the max weight at the new root. -/
def ufUnion (uf : UnionFind) (a b : Str) : UnionFind :=
  let ra := ufFind uf a
  let rb := ufFind uf b
  if ra = rb then uf
  else
    let swap := dGetD uf.rank ra 0 < dGetD uf.rank rb 0
    let ra2 := if swap then rb else ra
    let rb2 := if swap then ra else rb
    let parent2 := dSet uf.parent rb2 ra2
    let rank2 :=
      if dGetD uf.rank ra2 0 = dGetD uf.rank rb2 0 then
        dSet uf.rank ra2 (dGetD uf.rank ra2 0 + 1)
      else uf.rank
    let weight2 :=
      dSet uf.weight ra2 (max (dGetD uf.weight ra2 0) (dGetD uf.weight rb2 0))
    ⟨parent2, rank2, weight2⟩

/-- `groups()`: representative → members (insertion-ordered model of the
source's `defaultdict(set)`). -/
def ufGroups (uf : UnionFind) : List (Str × List Str) :=
  uf.parent.foldl (fun acc kv =>
    let root := ufFind uf kv.1
    dSet acc root (sInsert (dGetD acc root []) kv.1)) []

/-! ## Layer 4: `fuzzy_match_groups` -/

/-- `_total_count_for_canonical` from the source. -/
def total_count_for_canonical (canonical : Str)
    (canonical_to_originals : List (Str × List Str))
    (nodes_by_id : List (Str × Node)) : Nat :=
  let originals := dGetD canonical_to_originals canonical [canonical]
  originals.foldl (fun tot oid =>
    match dGet? nodes_by_id oid with
    | some node => tot + node.count
    | none => tot) 0

/-- The OCR penalty of `_best_name_for_canonical`'s score. -/
def bnPenalty (name : Str) : Nat :=
  let nl := pyLower name
  (([ "rn", "ii", "ffl", "ffi", "0", "1", "3" ].map str).filter
    (fun p => containsSub p nl)).length

/-- Python `str.title()` (ASCII cased characters). -/
def pyTitleGo : Bool → Str → Str
  | _, [] => []
  | prevA, c :: cs =>
    (if isAlphaC c then (if prevA then Char.toLower c else Char.toUpper c)
     else c) :: pyTitleGo (isAlphaC c) cs

/-- Python `str.title()`. -/
def pyTitle (s : Str) : Str := pyTitleGo false s

/-- Python `a < b` on strings (used for tie-breaking comparisons). -/
def lexLt (a b : Str) : Bool := lexLe a b ∧ decide (a ≠ b)

/-- Strict greater-than on the score tuples of `_best_name_for_canonical`:
`(has_words, is_title, -ocr_penalty, freq, name)`. -/
def bnScoreGt (a b : Bool × Bool × Nat × Nat × Str) : Bool :=
  if a.1 ≠ b.1 then a.1
  else if a.2.1 ≠ b.2.1 then a.2.1
  else if a.2.2.1 ≠ b.2.2.1 then decide (a.2.2.1 < b.2.2.1)
  else if a.2.2.2.1 ≠ b.2.2.2.1 then decide (b.2.2.2.1 < a.2.2.2.1)
  else lexLt b.2.2.2.2 a.2.2.2.2

/-- `_best_name_for_canonical` from the source (the `-ocr_penalty` component
is stored positively and compared in reverse in `bnScoreGt`). -/
def best_name_for_canonical (canonical : Str)
    (canonical_to_originals : List (Str × List Str))
    (nodes_by_id : List (Str × Node)) : Str :=
  let originals := dGetD canonical_to_originals canonical [canonical]
  let name_counts := originals.foldl (fun (nc : List (Str × Nat)) oid =>
    match dGet? nodes_by_id oid with
    | some node =>
      if node.name ≠ [] then dSet nc node.name (dGetD nc node.name 0 + node.count)
      else nc
    | none => nc) []
  match dKeys name_counts with
  | [] => []
  | k0 :: ks =>
    let score := fun (name : Str) =>
      (decide (2 ≤ (splitWs name).length), decide (name = pyTitle name),
        bnPenalty name, dGetD name_counts name 0, name)
    maxByFirst (fun a b => bnScoreGt (score a) (score b)) k0 ks

/-- Per-canonical precomputed info of the Layer-4 loop. -/
structure FuzzyInfo where
  canon : Str
  lo : Str
  len : Nat
  count : Nat
  name : Str
deriving Repr

/-- The boundary name gate of `fuzzy_match_groups` (applies only when
`dist == threshold` and both display names are present). -/
def nameGateRejects (li lj ni nj : Str) (dist threshold : Nat) : Bool :=
  if ni ≠ [] ∧ nj ≠ [] ∧ dist = threshold then
    let jw := jaro_winkler (pyLower ni) (pyLower nj)
    let w1 := dedupFirst (splitWs (pyLower ni))
    let w2 := dedupFirst (splitWs (pyLower nj))
    let common := (w1.filter (fun w => decide (w ∈ w2))).length
    let total := (w1 ++ w2.filter (fun w => decide (w ∉ w1))).length
    let token_sim : ℚ := if total = 0 then 1 else (common : ℚ) / total
    let li_parts := dedupFirst
      ((splitOnPred (fun c => decide (c = '.')) li).filter
        (fun p => decide (3 ≤ p.length)))
    let lj_parts := dedupFirst
      ((splitOnPred (fun c => decide (c = '.')) lj).filter
        (fun p => decide (3 ≤ p.length)))
    let shared_local := li_parts.any (fun p => decide (p ∈ lj_parts))
    decide (jw < 85 / 100) ∧ decide (token_sim < 4 / 10) ∧ ¬ shared_local
  else false

/-- The traffic gate of `fuzzy_match_groups` (avoid merging distinct
high-traffic people; float arithmetic over `ℚ`). -/
def trafficGateRejects (ni nj : Str) (ci cj : Nat) : Bool :=
  if ci > 50 ∧ cj > 50 then
    if ((max ci cj : Nat) : ℚ) / ((max 1 (min ci cj) : Nat) : ℚ) < 2 then
      if ni ≠ [] ∧ nj ≠ [] then
        decide (jaro_winkler (pyLower ni) (pyLower nj) < 95 / 100)
      else true
    else false
  else false

/-- The per-pair acceptance test of `fuzzy_match_groups` (the edit-distance
threshold check, the boundary name gate, and the traffic gate). -/
def fuzzyPairGate (li lj ni nj : Str) (ci cj : Nat) : Bool :=
  let shorter := min li.length lj.length
  let threshold := max 2 (shorter / 5)
  let dist := levenshtein li lj
  if dist > threshold then false
  else if nameGateRejects li lj ni nj dist threshold then false
  else if trafficGateRejects ni nj ci cj then false
  else true

/-- The inner `j` loop of Layer 4 over the length-sorted tail. -/
def fuzzyInner (ci : FuzzyInfo) : UnionFind → List FuzzyInfo → UnionFind
  | uf, [] => uf
  | uf, cj :: rest =>
    let shorter := min ci.len cj.len
    if shorter < 2 then fuzzyInner ci uf rest
    else
      let threshold := max 2 (shorter / 5)
      if cj.len - ci.len > threshold then uf
      else if ufFind uf ci.canon = ufFind uf cj.canon then fuzzyInner ci uf rest
      else if fuzzyPairGate ci.lo cj.lo ci.name cj.name ci.count cj.count then
        fuzzyInner ci (ufUnion uf ci.canon cj.canon) rest
      else fuzzyInner ci uf rest

/-- The outer `i` loop of Layer 4. -/
def fuzzyOuter : UnionFind → List FuzzyInfo → UnionFind
  | uf, [] => uf
  | uf, ci :: rest => fuzzyOuter (fuzzyInner ci uf rest) rest

/-- Strict greater-than on `(total_count, canonical)` pairs (the
representative tie-break of Layer 4 and Layer 7). -/
def countCanonGt (a b : Nat × Str) : Bool :=
  if a.1 ≠ b.1 then decide (b.1 < a.1) else lexLt b.2 a.2

/-- `fuzzy_match_groups(nodes_by_id, alias_map, skip)` from the source. -/
def fuzzy_match_groups (nodes_by_id : List (Str × Node))
    (alias_map : List (Str × Str)) (skip : Bool) : List (Str × Str) :=
  if skip then []
  else
    let cto := alias_map.foldl (fun acc kv =>
      dSet acc kv.2 (dGetD acc kv.2 [] ++ [kv.1])) []
    let domain_groups := (dedupFirst (dVals alias_map)).foldl (fun acc canon =>
      if hasAt canon then
        match splitFirst '@' canon with
        | some (_, dom) => dSet acc dom (dGetD acc dom [] ++ [canon])
        | none => acc
      else acc) []
    let uf := domain_groups.foldl (fun uf dg =>
      if dg.2.length < 2 then uf
      else
        let canon_info := dg.2.map (fun c =>
          let lo := canonLocal c
          FuzzyInfo.mk c lo lo.length (total_count_for_canonical c cto nodes_by_id)
            (best_name_for_canonical c cto nodes_by_id))
        let uf1 := canon_info.foldl (fun u ci => ufAdd u ci.canon ci.count) uf
        let sorted_info := canon_info.insertionSort (fun a b =>
          a.len < b.len ∨ (a.len = b.len ∧ lexLe a.lo b.lo = true))
        fuzzyOuter uf1 sorted_info) (UnionFind.mk [] [] [])
    (ufGroups uf).foldl (fun merges g =>
      if g.2.length ≤ 1 then merges
      else
        match g.2 with
        | [] => merges
        | m0 :: ms =>
          let key := fun c => (total_count_for_canonical c cto nodes_by_id, c)
          let best := maxByFirst (fun a b => countCanonGt (key a) (key b)) m0 ms
          g.2.foldl (fun ms2 m => if m ≠ best then dSet ms2 m best else ms2)
            merges) []

/-! ## Layer 5: `single_to_full_name_matches` -/

/-- `single_to_full_name_matches(alias_map, nodes_by_id)` from the source. -/
def single_to_full_name_matches (alias_map : List (Str × Str))
    (nodes_by_id : List (Str × Node)) : List (Str × Str) :=
  let cto := alias_map.foldl (fun acc kv =>
    dSet acc kv.2 (dGetD acc kv.2 [] ++ [kv.1])) []
  let domain_canonicals := (dedupFirst (dVals alias_map)).foldl (fun acc canon =>
    if hasAt canon then
      match splitFirst '@' canon with
      | some (lo, dom) => dSet acc dom (dGetD acc dom [] ++ [(lo, canon)])
      | none => acc
    else acc) []
  domain_canonicals.foldl (fun merges dg =>
    let split : List (Str × Str) × List (Str × Str × List Str) := dg.2.foldl
      (fun (sm : List (Str × Str) × List (Str × Str × List Str)) e =>
        let parts := (splitSeps e.1).filter (fun p => decide (1 < p.length))
        if parts.length ≤ 1 then (sm.1 ++ [(e.1, e.2)], sm.2)
        else (sm.1, sm.2 ++ [(e.1, e.2, parts)]))
      (([], []) : List (Str × Str) × List (Str × Str × List Str))
    if split.1 = [] ∨ split.2 = [] then merges
    else
      split.1.foldl (fun merges2 se =>
        if dHas merges2 se.2 then merges2
        else
          let candidates : List (Str × Nat) := split.2.foldl (fun cands me =>
            if dHas merges2 me.2.1 then cands
            else if se.1 ∈ me.2.2 then
              cands ++ [(me.2.1, total_count_for_canonical me.2.1 cto nodes_by_id)]
            else cands) []
          match candidates with
          | [] => merges2
          | [only] => dSet merges2 se.2 only.1
          | _ =>
            let sortedC := candidates.insertionSort (fun a b => b.2 ≤ a.2)
            match sortedC with
            | top :: second :: _ =>
              if top.2 > 0 ∧ (second.2 = 0 ∨
                  ((top.2 : ℚ) / ((max 1 second.2 : Nat) : ℚ) ≥ 5)) then
                dSet merges2 se.2 top.1
              else merges2
            | _ => merges2) merges) []

/-! ## Layer 6: `concatenation_matches` -/

/-- `concatenation_matches(alias_map, nodes_by_id)` from the source.  (The
source also builds `canonical_to_originals` here but never reads it, so the
model omits that dead binding; `nodes_by_id` is likewise unread.) -/
def concatenation_matches (alias_map : List (Str × Str))
    (_nodes_by_id : List (Str × Node)) : List (Str × Str) :=
  let domain_canonicals := (dedupFirst (dVals alias_map)).foldl (fun acc canon =>
    if hasAt canon then
      match splitFirst '@' canon with
      | some (lo, dom) => dSet acc dom (dGetD acc dom [] ++ [(lo, canon)])
      | none => acc
    else acc) []
  let domain_multiparts := domain_canonicals.foldl (fun acc dg =>
    dg.2.foldl (fun acc2 e =>
      let parts := (splitSeps e.1).filter (fun p => decide (1 < p.length))
      if parts.length ≥ 2 then
        dSet acc2 dg.1 (dSet (dGetD acc2 dg.1 []) (sortStrs parts) e.2)
      else acc2) acc) ([] : List (Str × List (List Str × Str)))
  domain_canonicals.foldl (fun merges dg =>
    let known_multis : List (List Str × Str) := dGetD domain_multiparts dg.1 []
    if known_multis = [] then merges
    else
      dg.2.foldl (fun merges2 e =>
        if dHas merges2 e.2 then merges2
        else
          let parts := (splitSeps e.1).filter (fun p => decide (1 < p.length))
          if parts.length ≠ 1 ∨ e.1.length < 6 then merges2
          else
            let hits := ((List.range (e.1.length - 1)).drop 2).foldl
              (fun hs split_pos =>
                let left := e.1.take split_pos
                let right := e.1.drop split_pos
                if left.length < 2 ∨ right.length < 2 then hs
                else
                  match dGet? known_multis (sortStrs [left, right]) with
                  | some target => if target ≠ e.2 then hs ++ [target] else hs
                  | none => hs) []
            match dedupFirst hits with
            | [only] => dSet merges2 e.2 only
            | _ => merges2) merges) []

/-! ## Layer 7: `_same_name_merge` -/

/-- Is the cleaned local a single generic token
(`len(local_clean) == 1 and local_clean[0] in _GENERIC_LOCALS`)? -/
def isGenericLocal (lo : Str) : Bool :=
  match (splitSeps lo).filter (fun p => decide (p ≠ [])) with
  | [p] => decide (p ∈ GENERIC_LOCALS)
  | _ => false

/-- The cross-domain similarity threshold `max(3, max_domain_len // 3)`. -/
def domainThreshold (di dj : Str) : Nat := max 3 (max di.length dj.length / 3)

/-- Strategy 1b pairwise loop: union same-local canonicals on OCR-similar
domains. -/
def s1bInner (ci : Str × Str × Nat) : UnionFind → List (Str × Str × Nat) →
    UnionFind
  | uf, [] => uf
  | uf, cj :: rest =>
    if ufFind uf ci.1 = ufFind uf cj.1 then s1bInner ci uf rest
    else
      let dist := levenshtein ci.2.1 cj.2.1
      if dist ≤ domainThreshold ci.2.1 cj.2.1 ∧ dist > 0 then
        s1bInner ci (ufUnion uf ci.1 cj.1) rest
      else s1bInner ci uf rest

/-- Strategy 1b outer loop. -/
def s1bOuter : UnionFind → List (Str × Str × Nat) → UnionFind
  | uf, [] => uf
  | uf, ci :: rest => s1bOuter (s1bInner ci uf rest) rest

/-- Strategy 2 pairwise loop (same local and name; gated domain check). -/
def s2Inner (require_domain_check : Bool) (ci : Str × Str × Nat) :
    UnionFind → List (Str × Str × Nat) → UnionFind
  | uf, [] => uf
  | uf, cj :: rest =>
    if ufFind uf ci.1 = ufFind uf cj.1 then s2Inner require_domain_check ci uf rest
    else if require_domain_check ∧
        levenshtein ci.2.1 cj.2.1 > domainThreshold ci.2.1 cj.2.1 then
      s2Inner require_domain_check ci uf rest
    else s2Inner require_domain_check ci (ufUnion uf ci.1 cj.1) rest

/-- Strategy 2 outer loop. -/
def s2Outer (require_domain_check : Bool) : UnionFind →
    List (Str × Str × Nat) → UnionFind
  | uf, [] => uf
  | uf, ci :: rest =>
    s2Outer require_domain_check (s2Inner require_domain_check ci uf rest) rest

/-- One Strategy 3 entry: `(canon, local, domain, count, local_parts,
is_generic)`. -/
structure S3Entry where
  canon : Str
  lo : Str
  dom : Str
  count : Nat
  parts : List Str
  generic : Bool
deriving Repr

/-- The Strategy 3 pair test: full-string fuzzy local match, else best
permutation-sum of per-token distances, then the gated domain check. -/
def s3PairOk (ei ej : S3Entry) : Bool :=
  let local_dist := levenshtein ei.lo ej.lo
  let shorter_local := min ei.lo.length ej.lo.length
  if shorter_local < 3 then false
  else
    let local_threshold := max 2 (shorter_local / 4)
    let matched0 := decide (local_dist ≤ local_threshold)
    let matched :=
      if matched0 = false ∧ ei.parts.length = ej.parts.length ∧
          ei.parts.length ≥ 2 then
        let dists := ej.parts.permutations.map (fun q =>
          (List.zipWith levenshtein ei.parts q).sum)
        let part_threshold := max 2 ((ei.parts.map List.length).sum / 4)
        match dists with
        | [] => false
        | d0 :: ds => decide (ds.foldl min d0 ≤ part_threshold)
      else matched0
    if matched = false then false
    else
      let require_domain_check := ei.generic ∨ ej.generic ∨
        decide (pyLower ei.lo ∈ COMMON_FIRST_NAMES) ∨
        decide (pyLower ej.lo ∈ COMMON_FIRST_NAMES) ∨
        decide (ei.lo.length ≤ 4) ∨ decide (ej.lo.length ≤ 4)
      if require_domain_check ∧
          levenshtein ei.dom ej.dom > domainThreshold ei.dom ej.dom then false
      else true

/-- Strategy 3 pairwise loop. -/
def s3Inner (ei : S3Entry) : UnionFind → List S3Entry → UnionFind
  | uf, [] => uf
  | uf, ej :: rest =>
    if ufFind uf ei.canon = ufFind uf ej.canon then s3Inner ei uf rest
    else if s3PairOk ei ej then s3Inner ei (ufUnion uf ei.canon ej.canon) rest
    else s3Inner ei uf rest

/-- Strategy 3 outer loop. -/
def s3Outer : UnionFind → List S3Entry → UnionFind
  | uf, [] => uf
  | uf, ei :: rest => s3Outer (s3Inner ei uf rest) rest

/-- `_same_name_merge(alias_map, nodes_by_id)` from the source (Layer 7, all
three strategies). -/
def same_name_merge (alias_map : List (Str × Str))
    (nodes_by_id : List (Str × Node)) : List (Str × Str) :=
  let cto := alias_map.foldl (fun acc kv =>
    dSet acc kv.2 (dGetD acc kv.2 [] ++ [kv.1])) []
  let vals := dedupFirst (dVals alias_map)
  -- Strategy 1: same domain, same normalized name
  let domain_name_groups := vals.foldl (fun acc canon =>
    if hasAt canon = false then acc
    else
      match splitFirst '@' canon with
      | none => acc
      | some (_, dom) =>
        let name := best_name_for_canonical canon cto nodes_by_id
        if name = [] then acc
        else
          let words := splitWs (pyLower name)
          if words.length < 2 then acc
          else
            let norm_name := pyJoin [' '] (sortStrs words)
            let count := total_count_for_canonical canon cto nodes_by_id
            dSet acc (dom, norm_name)
              (dGetD acc (dom, norm_name) [] ++ [(canon, count)])) []
  let merges1 := domain_name_groups.foldl (fun m g =>
    if g.2.length < 2 then m
    else
      match g.2.insertionSort (fun a b => b.2 ≤ a.2) with
      | [] => m
      | best :: rest =>
        rest.foldl (fun m2 e =>
          if dHas m2 e.1 then m2 else dSet m2 e.1 best.1) m) []
  -- Strategy 1b: cross-domain, same local, similar domain
  let local_domain_groups := (sortStrs vals).foldl (fun acc canon =>
    if dHas merges1 canon then acc
    else if hasAt canon = false then acc
    else
      match splitFirst '@' canon with
      | none => acc
      | some (lo, dom) =>
        if isGenericLocal lo then acc
        else if decide (pyLower lo ∈ COMMON_FIRST_NAMES) then acc
        else if lo.length ≤ 3 then acc
        else
          let count := total_count_for_canonical canon cto nodes_by_id
          dSet acc lo (dGetD acc lo [] ++ [(canon, dom, count)])) []
  let uf1b := local_domain_groups.foldl (fun uf g =>
    if g.2.length < 2 then uf
    else s1bOuter (g.2.foldl (fun u e => ufAdd u e.1 e.2.2) uf) g.2)
    (UnionFind.mk [] [] [])
  let merges2 := (ufGroups uf1b).foldl (fun m g =>
    if g.2.length ≤ 1 then m
    else
      match g.2 with
      | [] => m
      | m0 :: ms =>
        let key := fun c => (total_count_for_canonical c cto nodes_by_id, c)
        let best := maxByFirst (fun a b => countCanonGt (key a) (key b)) m0 ms
        g.2.foldl (fun m2 x =>
          if x ≠ best ∧ dHas m2 x = false then dSet m2 x best else m2) m) merges1
  -- Strategy 2: cross-domain, same local + same name
  let lngBuild := (sortStrs vals).foldl
    (fun (acc : List ((Str × Str) × List (Str × Str × Nat)) × List (Str × Bool))
        canon =>
      if dHas merges2 canon then acc
      else if hasAt canon = false then acc
      else
        match splitFirst '@' canon with
        | none => acc
        | some (lo, dom) =>
          let is_generic := isGenericLocal lo
          let name := best_name_for_canonical canon cto nodes_by_id
          if name = [] then acc
          else
            let norm_name := pyJoin [' '] (sortStrs (splitWs (pyLower name)))
            let count := total_count_for_canonical canon cto nodes_by_id
            (dSet acc.1 (lo, norm_name)
              (dGetD acc.1 (lo, norm_name) [] ++ [(canon, dom, count)]),
             dSet acc.2 lo is_generic)) ([], [])
  let uf2 := lngBuild.1.foldl (fun uf g =>
    if g.2.length < 2 then uf
    else
      let require_domain_check := dGetD lngBuild.2 g.1.1 false ∨
        decide (pyLower g.1.1 ∈ COMMON_FIRST_NAMES) ∨ decide (g.1.1.length ≤ 4)
      s2Outer require_domain_check (g.2.foldl (fun u e => ufAdd u e.1 e.2.2) uf)
        g.2) (UnionFind.mk [] [] [])
  -- Strategy 3: cross-domain, fuzzy local + same name (same union-find)
  let name_groups := (sortStrs vals).foldl (fun acc canon =>
    if dHas merges2 canon then acc
    else if hasAt canon = false then acc
    else
      match splitFirst '@' canon with
      | none => acc
      | some (lo, dom) =>
        let is_generic := isGenericLocal lo
        let name := best_name_for_canonical canon cto nodes_by_id
        if name = [] then acc
        else
          let norm_name := pyJoin [' '] (sortStrs (splitWs (pyLower name)))
          let count := total_count_for_canonical canon cto nodes_by_id
          let local_parts := sortStrs (splitSeps lo)
          dSet acc norm_name (dGetD acc norm_name [] ++
            [S3Entry.mk canon lo dom count local_parts is_generic])) []
  let uf3 := name_groups.foldl (fun uf g =>
    if g.2.length < 2 then uf
    else s3Outer (g.2.foldl (fun u e => ufAdd u e.canon e.count) uf) g.2) uf2
  -- Final: convert union-find groups to merges, pooling Strategy 1 targets
  (ufGroups uf3).foldl (fun m g =>
    if g.2.length ≤ 1 then m
    else
      let cands := g.2.foldl (fun cs x =>
        match dGet? m x with
        | some d => sInsert cs d
        | none => cs) g.2
      match cands with
      | [] => m
      | c0 :: cs =>
        let key := fun c => (total_count_for_canonical c cto nodes_by_id, c)
        let best := maxByFirst (fun a b => countCanonGt (key a) (key b)) c0 cs
        cands.foldl (fun m2 x => if x ≠ best then dSet m2 x best else m2) m) merges2

/-! ## Merge application and final assembly -/

/-- The chain-resolution loop of `_apply_layer_merges`: follow `dst` through
the merge map until it leaves the map or revisits a seen canonical.  The fuel
`|merges| + 1` strictly bounds the number of loop iterations, so this equals
the source's `while` loop. -/
def resolveChain (merges : List (Str × Str)) : Nat → List Str → Str → Str
  | 0, _, dst => dst
  | fuel + 1, seen, dst =>
    if dHas merges dst ∧ dst ∉ seen then
      resolveChain merges fuel (seen ++ [dst]) (dGetD merges dst dst)
    else dst

/-- `_apply_layer_merges(alias_map, merges)` from the source (the returned
change count is only printed by the source, so the model returns the updated
map alone). -/
def apply_layer_merges (alias_map merges : List (Str × Str)) :
    List (Str × Str) :=
  if merges = [] then alias_map
  else
    let resolved := merges.foldl (fun res kv =>
      dSet res kv.1 (resolveChain merges (merges.length + 1) [kv.1] kv.2)) []
    alias_map.map (fun kv =>
      match dGet? resolved kv.2 with
      | some dst => (kv.1, dst)
      | none => kv)

/-- The score tuple of `choose_canonical_node`:
`(count, domain_clean, has_dot, name_score, -len(id))`. -/
def chooseScore (node : Node) : Nat × Nat × Nat × Int × Int :=
  let nid := node.id
  let name := node.name
  let dom := node.domain
  let domain_clean :=
    if dom = str ("epa.gov") ∨ dom = str ("gmail.com") ∨ dom = str ("yahoo.com") ∨
        (endsWithS (str (".gov")) dom ∧
          ¬ (hasChar 'q' dom ∨ hasChar '3' dom ∨ hasChar '0' dom)) then
      (1 : Nat)
    else 0
  let lo := if hasAt nid then canonLocal nid else nid
  let has_dot := if hasChar '.' lo then (1 : Nat) else 0
  let name_score : Int :=
    if name = [] then 0
    else
      (if 2 ≤ (splitWs name).length then 2 else 0) +
      (if name = pyTitle name ∨ name = pyUpper name then 1 else 0) -
      (if ([ "rn", "ii", "0", "1", "3" ].map str).any
          (fun p => containsSub p (pyLower name)) then 1 else 0)
  (node.count, domain_clean, has_dot, name_score, -(nid.length : Int))

/-- Strict greater-than on `chooseScore` tuples. -/
def chooseScoreGt (a b : Nat × Nat × Nat × Int × Int) : Bool :=
  if a.1 ≠ b.1 then decide (b.1 < a.1)
  else if a.2.1 ≠ b.2.1 then decide (b.2.1 < a.2.1)
  else if a.2.2.1 ≠ b.2.2.1 then decide (b.2.2.1 < a.2.2.1)
  else if a.2.2.2.1 ≠ b.2.2.2.1 then decide (b.2.2.2.1 < a.2.2.2.1)
  else decide (b.2.2.2.2 < a.2.2.2.2)

/-- `choose_canonical_node(nodes)` from the source: Python `max`, which keeps
the first of score-tied candidates.  Callers guarantee a non-empty group. -/
def choose_canonical_node (nodes : List Node) : Node :=
  match nodes with
  | [] => Node.mk [] [] [] 0 0 0 [] 0
  | n0 :: rest =>
    maxByFirst (fun a b => chooseScoreGt (chooseScore a) (chooseScore b)) n0 rest

/-- The `name_quality` tuple of `best_display_name`:
`(has_two_words, is_title, freq, ocr_score)`, with `ocr_score` stored as the
penalty count and compared in reverse. -/
def nameQuality (name_counts : List (Str × Nat)) (name : Str) :
    Bool × Bool × Nat × Nat :=
  let pen := (([ "rn", "ii", "vv", "ffl", "svd", "liav" ].map str).filter
    (fun p => containsSub p (pyLower name))).length
  (decide (2 ≤ (splitWs name).length), decide (name = pyTitle name),
    dGetD name_counts name 0, pen)

/-- Strict greater-than on `nameQuality` tuples. -/
def nameQualityGt (a b : Bool × Bool × Nat × Nat) : Bool :=
  if a.1 ≠ b.1 then a.1
  else if a.2.1 ≠ b.2.1 then a.2.1
  else if a.2.2.1 ≠ b.2.2.1 then decide (b.2.2.1 < a.2.2.1)
  else decide (a.2.2.2 < b.2.2.2)

/-- `best_display_name(nodes)` from the source (fields are total in the
model, so `n.get("count", 1)` reads the `count` field). -/
def best_display_name (nodes : List Node) : Str :=
  if nodes = [] then []
  else
    let name_counts := nodes.foldl (fun (nc : List (Str × Nat)) n =>
      if n.name ≠ [] then dSet nc n.name (dGetD nc n.name 0 + n.count) else nc) []
    match dKeys name_counts with
    | [] => []
    | k0 :: ks =>
      maxByFirst (fun a b =>
        nameQualityGt (nameQuality name_counts a) (nameQuality name_counts b))
        k0 ks

/-- `_split_initial_name(name)` from the source. -/
def split_initial_name (name : Str) : Option Str :=
  if name = [] ∨ name.length < 5 then none
  else
    match splitWs name with
    | [word] =>
      if decide (pyLower word ∈ COMMON_FIRST_NAMES) then none
      else if decide (pyLower word ∈ GENERIC_LOCALS) then none
      else if decide (pyLower word ∈ BUSINESS_WORDS) then none
      else
        match word with
        | c :: rest =>
          if ¬ ('A' ≤ c ∧ c ≤ 'Z') then none
          else if rest.length < 3 then none
          else some (c :: '.' :: ' ' :: pyTitle rest)
        | [] => none
    | _ => none

/-- `_name_from_email(email_id)` from the source. -/
def name_from_email (email_id : Str) : Str :=
  if hasAt email_id = false then []
  else
    match splitFirst '@' email_id with
    | none => []
    | some (lo, _) =>
      let parts := (splitSeps lo).filter (fun p => decide (1 < p.length))
      if parts = [] then []
      else if (match parts with
          | [p] => decide (pyLower p ∈ GENERIC_LOCALS)
          | _ => false) then []
      else
        let attempt := match parts with
          | [p] => split_initial_name (pyTitle p)
          | _ => none
        match attempt with
        | some s => s
        | none => pyJoin [' '] (parts.map pyTitle)

/-- `_fix_name_order(name, email_id, domain)` from the source. -/
def fix_name_order (name email_id dom : Str) : Str :=
  if name = [] ∨ hasAt email_id = false then name
  else if decide (dom ∉ LASTNAME_FIRST_DOMAINS) then name
  else
    match splitWs name with
    | [w0, w1] =>
      let lo := canonLocal email_id
      let parts := (splitSeps lo).filter (fun p => decide (1 < p.length))
      match parts with
      | [email_last, email_first] =>
        if pyLower w0 = email_last ∧ pyLower w1 = email_first then
          w1 ++ ' ' :: w0
        else name
      | _ => name
    | _ => name

/-- `merge_nodes(best_id_groups, nodes_by_id)` from the source. -/
def merge_nodes (best_id_groups : List (Str × List Str))
    (nodes_by_id : List (Str × Node)) : List MergedNode :=
  best_id_groups.foldl (fun out g =>
    let best_id := g.1
    let group_nodes := g.2.filterMap (fun oid => dGet? nodes_by_id oid)
    if group_nodes = [] then out
    else
      let best_node :=
        dGetD nodes_by_id best_id (group_nodes.headD (Node.mk [] [] [] 0 0 0 [] 0))
      let name := best_display_name group_nodes
      let total_sent := (group_nodes.map (fun n => n.sent)).sum
      let total_received := (group_nodes.map (fun n => n.received)).sum
      let total_count := (group_nodes.map (fun n => n.count)).sum
      let all_years := group_nodes.foldl (fun ys n => n.years.foldl sInsert ys) []
      let max_domain_count := (group_nodes.map (fun n => n.domain_count)).foldl max 0
      let dom := normalize_domain best_node.domain
      let fn0 := if name ≠ [] then name else best_node.name
      let fn1 := if fn0 = [] then name_from_email best_id else fn0
      let fn2 := match split_initial_name fn1 with
        | some s => s
        | none => fn1
      let final_name := fix_name_order fn2 best_id dom
      let all_aliases := sortStrs g.2
      out ++ [MergedNode.mk best_id final_name dom total_sent total_received
        total_count (sortInts all_years) max_domain_count all_aliases]) []

/-- The running aggregate of one output edge inside `merge_edges`. -/
structure AggEdge where
  source : Str
  target : Str
  weight : Nat
  years : List Int
  doc_ids : List Str
deriving Repr

/-- One iteration of the aggregation loop of `merge_edges`. -/
def mergeEdgesStep (remap : Str → Str) (ea : List ((Str × Str) × AggEdge))
    (edge : Edge) : List ((Str × Str) × AggEdge) :=
  let src := remap edge.source
  let tgt := remap edge.target
  if src = tgt then ea
  else
    let key := (src, tgt)
    match dGet? ea key with
    | some e =>
      dSet ea key (AggEdge.mk e.source e.target (e.weight + edge.weight)
        (edge.years.foldl sInsert e.years) (edge.doc_ids.foldl sInsert e.doc_ids))
    | none =>
      ea ++ [(key, AggEdge.mk src tgt edge.weight (dedupFirst edge.years)
        (dedupFirst edge.doc_ids))]

/-- Emit one aggregated edge (sets emitted as sorted lists). -/
def finalizeAgg (kv : (Str × Str) × AggEdge) : Edge :=
  Edge.mk kv.2.source kv.2.target kv.2.weight (sortInts kv.2.years)
    (sortStrs kv.2.doc_ids)

/-- `merge_edges(edges, alias_map)` from the source.  The remap
`alias_map.get(x, x)` is passed as the function `remap`; the pipeline
instantiates it with the final remap lookup. -/
def merge_edges (edges : List Edge) (remap : Str → Str) : List Edge :=
  (edges.foldl (mergeEdgesStep remap) []).map finalizeAgg

/-- `recompute_stats(nodes, edges)` from the source. -/
def recompute_stats (nodes : List MergedNode) (edges : List Edge) : Stats :=
  let domain_counts := nodes.foldl (fun (dc : List (Str × Nat)) n =>
    if n.domain ≠ [] then dSet dc n.domain (dGetD dc n.domain 0 + 1) else dc) []
  let top := (domain_counts.insertionSort (fun a b => b.2 ≤ a.2)).take 50
  Stats.mk nodes.length edges.length (top.map (fun pr => TopDomain.mk pr.1 pr.2))

/-- The display-id cleanup applied to the chosen raw id in `build_alias_map`
(structural cleanup, domain normalization, then the conservative
digit-in-alpha fix on the local part). -/
def displayClean (raw : Str) : Str :=
  let b1 := apply_domain_normalization (structural_cleanup raw)
  if hasAt b1 then
    match splitFirst '@' b1 with
    | some (lo, dom) => ocr_clean_local_for_display lo ++ '@' :: dom
    | none => b1
  else b1

/-- `build_alias_map(nodes, no_fuzzy)` from the source (reporting/printing
omitted).  Returns `(final_remap, best_id_groups)`. -/
def build_alias_map (nodes : List Node) (no_fuzzy : Bool) :
    List (Str × Str) × List (Str × List Str) :=
  let nodes_by_id := nodes.foldl (fun (m : List (Str × Node)) n => dSet m n.id n) []
  let all_original_ids := dKeys nodes_by_id
  let am0 := all_original_ids.map (fun nid => (nid, nid))
  let am1 := am0.map (fun kv => (kv.1, structural_cleanup kv.2))
  let am2 := am1.map (fun kv => (kv.1, apply_domain_normalization kv.2))
  let am3 := am2.map (fun kv => (kv.1, apply_local_ocr_normalization kv.2))
  let am4 := apply_layer_merges am3 (join_split_local_matches am3 all_original_ids)
  let am5 := apply_layer_merges am4 (prefix_strip_matches am4)
  let am6 := apply_layer_merges am5 (fuzzy_match_groups nodes_by_id am5 no_fuzzy)
  let am7 := apply_layer_merges am6 (single_to_full_name_matches am6 nodes_by_id)
  let am8 := apply_layer_merges am7 (concatenation_matches am7 nodes_by_id)
  let am9 := apply_layer_merges am8 (same_name_merge am8 nodes_by_id)
  let canonical_groups := am9.foldl (fun (cg : List (Str × List Str)) kv =>
    dSet cg kv.2 (sInsert (dGetD cg kv.2 []) kv.1)) []
  let fin := canonical_groups.foldl
    (fun (st : List (Str × List Str) × List (Str × Str)) g =>
      let group_nodes := g.2.filterMap (fun oid => dGet? nodes_by_id oid)
      if group_nodes = [] then st
      else
        let best_node := choose_canonical_node group_nodes
        let best_id := displayClean best_node.id
        (dSet st.1 best_id g.2,
         g.2.foldl (fun fr oid => dSet fr oid best_id) st.2)) ([], [])
  (fin.2, fin.1)

/-- The pure computational core of `run_dedup` (file I/O, printing and the
invariant-warning block omitted; `dry_run`/`report` only affect printing). -/
def run_dedup_pure (nodes : List Node) (edges : List Edge) (no_fuzzy : Bool) :
    DedupOutput :=
  let bm := build_alias_map nodes no_fuzzy
  let nodes_by_id := nodes.foldl (fun (m : List (Str × Node)) n => dSet m n.id n) []
  let merged_nodes := merge_nodes bm.2 nodes_by_id
  let merged_edges := merge_edges edges (fun x => dGetD bm.1 x x)
  DedupOutput.mk (recompute_stats merged_nodes merged_edges) merged_nodes
    merged_edges

/-! ## Theorems -/

/-- Splitting at the first `'@'` of `lo ++ '@' :: d` recovers `(lo, d)` when
`lo` contains no `'@'`. -/
theorem splitFirst_at_append (lo d : Str) (h : '@' ∉ lo) :
    splitFirst '@' (lo ++ '@' :: d) = some (lo, d) := by
  induction lo with
  | nil => simp [splitFirst]
  | cons c cs ih =>
    have hc : c ≠ '@' := fun hc => h (hc ▸ List.mem_cons_self c cs)
    have hcs : '@' ∉ cs := fun hm => h (List.mem_cons_of_mem c hm)
    simp [splitFirst, hc, ih hcs]

/-- A string of the form `lo ++ '@' :: d` contains an `'@'`. -/
theorem hasAt_append_at (lo d : Str) : hasAt (lo ++ '@' :: d) = true := by
  simp [hasAt, hasChar]

/-- Every member of the `EPA_ERROR_DOMAINS` table normalizes to `epa.gov`. -/
theorem epa_table_all_norm :
    ∀ d ∈ EPA_ERROR_DOMAINS, normalize_domain d = str ("epa.gov") := by decide

/-- C6: for every domain `d` in `EPA_ERROR_DOMAINS` and every local part, the
address `local@d` emits on the `epa.gov` domain (`normalize_domain d =
"epa.gov"` and hence Layer 2 rewrites the address to `local@epa.gov`), while
`iepa.gov` and `calepa.ca.gov` are preserved unchanged. -/
theorem C6_epa_domain_table_law :
    (∀ lo : Str, '@' ∉ lo → ∀ d ∈ EPA_ERROR_DOMAINS,
      apply_domain_normalization (lo ++ '@' :: d) = lo ++ '@' :: str ("epa.gov")) ∧
    normalize_domain (str ("iepa.gov")) = str ("iepa.gov") ∧
    normalize_domain (str ("calepa.ca.gov")) = str ("calepa.ca.gov") := by
  refine ⟨?_, by decide, by decide⟩
  intro lo hlo d hd
  unfold apply_domain_normalization
  rw [hasAt_append_at, splitFirst_at_append lo d hlo]
  simp [epa_table_all_norm d hd]

/-- Witness for C6 at local part `bob` and table entry `epa.govl`. -/
theorem C6_epa_domain_table_law_witness :
    ('@' ∉ str ("bob") ∧ str ("epa.govl") ∈ EPA_ERROR_DOMAINS) ∧
    apply_domain_normalization (str ("bob") ++ '@' :: str ("epa.govl")) =
      str ("bob") ++ '@' :: str ("epa.gov") :=
  ⟨⟨by decide, by decide⟩,
    C6_epa_domain_table_law.1 (str ("bob")) (by decide) (str ("epa.govl"))
      (by decide)⟩

/-- The two-node graph on which the display-id cleanup makes two distinct
canonical groups collide: the digit fix maps `2 → z` while Layer 3's OCR map
does not touch `2`, so both groups clean to `aazaazaazaa@x.com` and the
`best_id_groups[best_id] = original_ids` assignment drops the first group. -/
def collideC1 : List Node :=
  [Node.mk (str ("aa2aa2aa2aa@x.com")) [] [] 0 0 1 [] 0,
   Node.mk (str ("aazaazaazaa@x.com")) [] [] 0 0 1 [] 0]

/-- C1 (code bug): on a graph with pairwise-distinct node ids the pipeline
loses a whole group's counts — the output count sum is 1, the input sum 2.
The source's own invariant-check block warns about exactly this drift. -/
theorem C1_count_conservation_bug :
    ((collideC1.map (fun n => n.id)).Nodup) ∧
    ((run_dedup_pure collideC1 [] false).nodes.map (fun n => n.count)).sum ≠
      (collideC1.map (fun n => n.count)).sum := by decide

/-- Same collision shape as `collideC1`, used for the alias-partition claim. -/
def collideC2 : List Node :=
  [Node.mk (str ("aa2aa2aa2aa@x.com")) [] [] 0 0 2 [] 0,
   Node.mk (str ("aazaazaazaa@x.com")) [] [] 0 0 2 [] 0]

/-- C2 (code bug): the first input id appears in no output node's `aliases`,
so the alias sets do not cover the input id set. -/
theorem C2_alias_partition_bug :
    ((collideC2.map (fun n => n.id)).Nodup) ∧
    ¬ (∀ i ∈ collideC2.map (fun n => n.id),
        ∃ m ∈ (run_dedup_pure collideC2 [] false).nodes, i ∈ m.aliases) := by
  decide

/-- The collision graph in its two input orders. -/
def permOrderA : List Node :=
  [Node.mk (str ("aa2aa2aa2aa@x.com")) [] [] 0 0 3 [] 0,
   Node.mk (str ("aazaazaazaa@x.com")) [] [] 0 0 4 [] 0]

/-- `permOrderA` reversed. -/
def permOrderB : List Node :=
  [Node.mk (str ("aazaazaazaa@x.com")) [] [] 0 0 4 [] 0,
   Node.mk (str ("aa2aa2aa2aa@x.com")) [] [] 0 0 3 [] 0]

/-- C5 (code bug): permuting the input `nodes` array changes which of the two
colliding canonical groups survives the `best_id_groups` overwrite, so the
output node multiset (counts and aliases) differs between the two orders. -/
theorem C5_ordering_determinism_bug :
    permOrderA.Perm permOrderB ∧
    ¬ (((run_dedup_pure permOrderA [] false).nodes.map
          (fun n => (n.count, n.aliases))).Perm
        ((run_dedup_pure permOrderB [] false).nodes.map
          (fun n => (n.count, n.aliases)))) := by decide

/-- C8 counterexample: with the length-1 token `x`, `canonicalize_local`
discards the token and keeps the original local, so `x.yz@d` and `yz.x@d` do
not share a canonical key after Layer 3. -/
theorem C8_layer3_order_cx :
    apply_local_ocr_normalization (str ("x.yz@d")) ≠
      apply_local_ocr_normalization (str ("yz.x@d")) := by decide

/-- With both counts above 50, the source's float ratio test
`max/max(1,min) < 2` is exactly `max < 2 * min`. -/
theorem ratio_lt_two_iff (ci cj : Nat) (hci : 50 < ci) (hcj : 50 < cj) :
    (((max ci cj : Nat) : ℚ) / ((max 1 (min ci cj) : Nat) : ℚ) < 2) ↔
      max ci cj < 2 * min ci cj := by
  have hmin : (1 : Nat) ≤ min ci cj := le_min (by omega) (by omega)
  have hm : max 1 (min ci cj) = min ci cj := max_eq_right hmin
  rw [hm]
  have hpos : (0 : ℚ) < ((min ci cj : Nat) : ℚ) := by
    exact_mod_cast lt_of_lt_of_le one_pos hmin
  rw [div_lt_iff hpos]
  constructor
  · intro h
    exact_mod_cast h
  · intro h
    exact_mod_cast h

/-- If the traffic gate rejects, the pair is not accepted. -/
theorem gate_false_of_trafficRejects (li lj ni nj : Str) (ci cj : Nat)
    (h : trafficGateRejects ni nj ci cj = true) :
    fuzzyPairGate li lj ni nj ci cj = false := by
  by_cases h1 : levenshtein li lj > max 2 (min li.length lj.length / 5)
  · simp [fuzzyPairGate, h1]
  · by_cases h2 : nameGateRejects li lj ni nj (levenshtein li lj)
        (max 2 (min li.length lj.length / 5)) = true
    · simp [fuzzyPairGate, h1, h2]
    · simp [fuzzyPairGate, h1, h2, h]

/-- If the pair is accepted, the traffic gate did not reject. -/
theorem trafficRejects_false_of_gate (li lj ni nj : Str) (ci cj : Nat)
    (h : fuzzyPairGate li lj ni nj ci cj = true) :
    trafficGateRejects ni nj ci cj = false := by
  by_contra hc
  have ht : trafficGateRejects ni nj ci cj = true := by
    cases hh : trafficGateRejects ni nj ci cj
    · exact absurd hh hc
    · rfl
  rw [gate_false_of_trafficRejects li lj ni nj ci cj ht] at h
  cases h

/-- C7: in the Layer-4 pair test, whenever both canonicals have total count
above 50 and the larger count is below twice the smaller, the pair passes
only if both display names are present and the Jaro-Winkler similarity of the
lowercased names is at least 0.95; with either name missing it is rejected. -/
theorem C7_traffic_gate (li lj ni nj : Str) (ci cj : Nat)
    (hci : 50 < ci) (hcj : 50 < cj) (hratio : max ci cj < 2 * min ci cj) :
    (fuzzyPairGate li lj ni nj ci cj = true →
      ni ≠ [] ∧ nj ≠ [] ∧
        (95 / 100 : ℚ) ≤ jaro_winkler (pyLower ni) (pyLower nj)) ∧
    ((ni = [] ∨ nj = []) → fuzzyPairGate li lj ni nj ci cj = false) := by
  have hr := (ratio_lt_two_iff ci cj hci hcj).mpr hratio
  have hTR : trafficGateRejects ni nj ci cj =
      (if ni ≠ [] ∧ nj ≠ [] then
        decide (jaro_winkler (pyLower ni) (pyLower nj) < 95 / 100)
      else true) := by
    unfold trafficGateRejects
    rw [if_pos ⟨hci, hcj⟩, if_pos hr]
  constructor
  · intro hacc
    have hTRF := trafficRejects_false_of_gate li lj ni nj ci cj hacc
    rw [hTR] at hTRF
    by_cases hnames : ni ≠ [] ∧ nj ≠ []
    · rw [if_pos hnames, decide_eq_false_iff_not] at hTRF
      exact ⟨hnames.1, hnames.2, le_of_not_lt hTRF⟩
    · rw [if_neg hnames] at hTRF
      cases hTRF
  · intro hmiss
    apply gate_false_of_trafficRejects
    rw [hTR, if_neg]
    intro hnames
    rcases hmiss with h | h
    · exact hnames.1 h
    · exact hnames.2 h

/-- Witness for C7: equal 4-character locals, both names `Bob Cat`, both
counts 100 — the gate accepts and the theorem yields the similarity bound. -/
theorem C7_traffic_gate_witness :
    (50 < 100 ∧ max 100 100 < 2 * min 100 100 ∧
      fuzzyPairGate (str ("aaaa")) (str ("aaaa")) (str ("Bob Cat"))
        (str ("Bob Cat")) 100 100 = true) ∧
    (95 / 100 : ℚ) ≤
      jaro_winkler (pyLower (str ("Bob Cat"))) (pyLower (str ("Bob Cat"))) := by
  have hjw : jaro_winkler (pyLower (str ("Bob Cat")))
      (pyLower (str ("Bob Cat"))) = 1 := by
    unfold jaro_winkler
    rw [if_pos rfl]
  have hgate : fuzzyPairGate (str ("aaaa")) (str ("aaaa")) (str ("Bob Cat"))
      (str ("Bob Cat")) 100 100 = true := by
    have hlev : levenshtein (str ("aaaa")) (str ("aaaa")) = 0 := by decide
    have hng : nameGateRejects (str ("aaaa")) (str ("aaaa")) (str ("Bob Cat"))
        (str ("Bob Cat")) (levenshtein (str ("aaaa")) (str ("aaaa")))
        (max 2 (min (str ("aaaa")).length (str ("aaaa")).length / 5)) = false := by
      unfold nameGateRejects
      rw [if_neg]
      intro hc
      rw [hlev] at hc
      exact absurd hc.2.2 (by decide)
    have htg : trafficGateRejects (str ("Bob Cat")) (str ("Bob Cat")) 100 100 =
        false := by
      unfold trafficGateRejects
      rw [if_pos (by decide), if_pos (by norm_num), if_pos (by decide), hjw]
      norm_num
    unfold fuzzyPairGate
    rw [if_neg (by rw [hlev]; decide), hng, htg]
    simp
  exact ⟨⟨by decide, by decide, hgate⟩,
    ((C7_traffic_gate (str ("aaaa")) (str ("aaaa")) (str ("Bob Cat"))
      (str ("Bob Cat")) 100 100 (by decide) (by decide) (by decide)).1
      hgate).2.2⟩

/-! ## Library lemmas: sets, dictionaries, sorting -/

theorem mem_sInsert {α : Type} [DecidableEq α] (l : List α) (x y : α) :
    y ∈ sInsert l x ↔ y ∈ l ∨ y = x := by
  unfold sInsert
  split
  · rename_i hx
    constructor
    · exact fun h => Or.inl h
    · rintro (h | rfl)
      · exact h
      · exact hx
  · simp

theorem nodup_sInsert {α : Type} [DecidableEq α] (l : List α) (x : α)
    (h : l.Nodup) : (sInsert l x).Nodup := by
  unfold sInsert
  split
  · exact h
  · refine List.Nodup.append h (List.nodup_singleton x) ?_
    intro a ha hb
    simp only [List.mem_singleton] at hb
    subst hb
    exact absurd ha (by assumption)

theorem mem_foldl_sInsert {α : Type} [DecidableEq α] (l acc : List α) (y : α) :
    y ∈ l.foldl sInsert acc ↔ y ∈ acc ∨ y ∈ l := by
  induction l generalizing acc with
  | nil => simp
  | cons a as ih =>
    simp only [List.foldl_cons, ih, mem_sInsert, List.mem_cons]
    tauto

theorem nodup_foldl_sInsert {α : Type} [DecidableEq α] (l : List α) :
    ∀ acc : List α, acc.Nodup → (l.foldl sInsert acc).Nodup := by
  induction l with
  | nil => exact fun acc h => h
  | cons a as ih =>
    intro acc h
    exact ih (sInsert acc a) (nodup_sInsert acc a h)

theorem mem_dedupFirst {α : Type} [DecidableEq α] (l : List α) (y : α) :
    y ∈ dedupFirst l ↔ y ∈ l := by
  unfold dedupFirst
  rw [mem_foldl_sInsert]
  simp

theorem nodup_dedupFirst {α : Type} [DecidableEq α] (l : List α) :
    (dedupFirst l).Nodup :=
  nodup_foldl_sInsert l [] List.nodup_nil

theorem dHas_iff_mem_keys {κ ν : Type} [DecidableEq κ] (m : List (κ × ν))
    (k : κ) : dHas m k = true ↔ k ∈ dKeys m := by
  unfold dHas dKeys
  simp [List.any_eq_true]

theorem mem_dSet_sub {κ ν : Type} [DecidableEq κ] {m : List (κ × ν)} {k : κ}
    {v : ν} {p : κ × ν} (h : p ∈ dSet m k v) : p = (k, v) ∨ p ∈ m := by
  unfold dSet at h
  split at h
  · rcases List.mem_map.mp h with ⟨kv, hkv, heq⟩
    by_cases hk : kv.1 = k
    · left
      rw [← heq, if_pos hk]
    · right
      rw [← heq, if_neg hk]
      exact hkv
  · rcases List.mem_append.mp h with h | h
    · exact Or.inr h
    · simp only [List.mem_singleton] at h
      exact Or.inl h

theorem dKeys_dSet {κ ν : Type} [DecidableEq κ] (m : List (κ × ν)) (k : κ)
    (v : ν) :
    dKeys (dSet m k v) = if dHas m k then dKeys m else dKeys m ++ [k] := by
  unfold dSet
  split
  · unfold dKeys
    rw [List.map_map]
    apply List.map_congr_left
    intro kv _
    by_cases hk : kv.1 = k
    · simp [hk]
    · simp [hk]
  · unfold dKeys
    simp

theorem mem_dSet_self {κ ν : Type} [DecidableEq κ] (m : List (κ × ν)) (k : κ)
    (v : ν) : (k, v) ∈ dSet m k v := by
  unfold dSet
  split
  · have hk : k ∈ dKeys m := (dHas_iff_mem_keys m k).mp (by assumption)
    rcases List.mem_map.mp hk with ⟨kv, hkv, heq⟩
    refine List.mem_map.mpr ⟨kv, hkv, ?_⟩
    rw [if_pos heq]
  · exact List.mem_append.mpr (Or.inr (List.mem_singleton.mpr rfl))

theorem mem_dSet_of_ne {κ ν : Type} [DecidableEq κ] {m : List (κ × ν)} {k : κ}
    {v : ν} {p : κ × ν} (hp : p ∈ m) (hne : p.1 ≠ k) : p ∈ dSet m k v := by
  unfold dSet
  split
  · refine List.mem_map.mpr ⟨p, hp, ?_⟩
    rw [if_neg hne]
  · exact List.mem_append.mpr (Or.inl hp)

theorem mem_dSet_iff {κ ν : Type} [DecidableEq κ] {m : List (κ × ν)} {k : κ}
    {v : ν} {p : κ × ν} (hn : (dKeys m).Nodup) :
    p ∈ dSet m k v ↔ p = (k, v) ∨ (p ∈ m ∧ p.1 ≠ k) := by
  constructor
  · intro h
    unfold dSet at h
    split at h
    · rcases List.mem_map.mp h with ⟨kv, hkv, heq⟩
      by_cases hk : kv.1 = k
      · left
        rw [← heq, if_pos hk]
      · right
        rw [← heq, if_neg hk]
        exact ⟨hkv, hk⟩
    · rename_i hnot
      rcases List.mem_append.mp h with h | h
      · refine Or.inr ⟨h, fun hk => hnot ?_⟩
        rw [dHas_iff_mem_keys]
        rw [← hk]
        exact List.mem_map.mpr ⟨p, h, rfl⟩
      · simp only [List.mem_singleton] at h
        exact Or.inl h
  · rintro (rfl | ⟨hp, hne⟩)
    · exact mem_dSet_self m k v
    · exact mem_dSet_of_ne hp hne

theorem dGet?_eq_none_iff {κ ν : Type} [DecidableEq κ] (m : List (κ × ν))
    (k : κ) : dGet? m k = none ↔ dHas m k = false := by
  unfold dGet? dHas
  rw [Option.map_eq_none', List.find?_eq_none]
  simp

theorem dGet?_mem {κ ν : Type} [DecidableEq κ] {m : List (κ × ν)} {k : κ}
    {v : ν} (h : dGet? m k = some v) : (k, v) ∈ m := by
  unfold dGet? at h
  rcases Option.map_eq_some'.mp h with ⟨kv, hfind, hv⟩
  have hm := List.mem_of_find?_eq_some hfind
  have hp := List.find?_some hfind
  simp only [decide_eq_true_eq] at hp
  have : kv = (k, v) := by
    cases kv
    simp only at hp hv
    simp [hp, hv]
  rw [← this]
  exact hm

theorem dGet?_eq_some_of_mem {κ ν : Type} [DecidableEq κ] {m : List (κ × ν)}
    {k : κ} {v : ν} (hn : (dKeys m).Nodup) (h : (k, v) ∈ m) :
    dGet? m k = some v := by
  induction m with
  | nil => cases h
  | cons kv rest ih =>
    unfold dGet?
    rcases List.mem_cons.mp h with rfl | hrest
    · simp [List.find?]
    · simp only [List.find?]
      have hk : kv.1 ≠ k := by
        intro hk
        have : kv.1 ∈ dKeys rest := by
          rw [← hk] at hrest
          exact List.mem_map.mpr ⟨(kv.1, v), hrest, rfl⟩
        rw [hk] at this
        unfold dKeys at hn
        rw [← hk] at this
        exact (List.nodup_cons.mp hn).1 this
      rw [decide_eq_false hk]
      have := ih (List.nodup_cons.mp hn).2 hrest
      unfold dGet? at this
      exact this

/-! Total order facts for `lexLe` (Python string comparison). -/

theorem lexLe_total (a b : Str) : lexLe a b = true ∨ lexLe b a = true := by
  induction a generalizing b with
  | nil => left; rfl
  | cons x xs ih =>
    cases b with
    | nil => right; rfl
    | cons y ys =>
      unfold lexLe
      rcases lt_trichotomy x y with h | h | h
      · left
        rw [if_pos h]
      · subst h
        simp only [if_neg (lt_irrefl x)]
        exact ih ys
      · right
        rw [if_pos h]

theorem lexLe_trans {a b c : Str} (hab : lexLe a b = true)
    (hbc : lexLe b c = true) : lexLe a c = true := by
  induction a generalizing b c with
  | nil => rfl
  | cons x xs ih =>
    cases b with
    | nil => exact absurd hab (by simp [lexLe])
    | cons y ys =>
      cases c with
      | nil => exact absurd hbc (by simp [lexLe])
      | cons z zs =>
        unfold lexLe at hab hbc ⊢
        rcases lt_trichotomy x y with h1 | h1 | h1
        · rcases lt_trichotomy y z with h2 | h2 | h2
          · rw [if_pos (lt_trans h1 h2)]
          · subst h2
            rw [if_pos h1]
          · rw [if_pos h2, if_neg (lt_asymm h2)] at hbc
            cases hbc
        · subst h1
          rcases lt_trichotomy x z with h2 | h2 | h2
          · rw [if_pos h2]
          · subst h2
            simp only [if_neg (lt_irrefl x)] at hab hbc ⊢
            exact ih hab hbc
          · rw [if_neg (lt_asymm h2), if_pos h2] at hbc
            cases hbc
        · rw [if_neg (lt_asymm h1), if_pos h1] at hab
          cases hab

theorem lexLe_antisymm {a b : Str} (hab : lexLe a b = true)
    (hba : lexLe b a = true) : a = b := by
  induction a generalizing b with
  | nil =>
    cases b with
    | nil => rfl
    | cons y ys => exact absurd hba (by simp [lexLe])
  | cons x xs ih =>
    cases b with
    | nil => exact absurd hab (by simp [lexLe])
    | cons y ys =>
      unfold lexLe at hab hba
      rcases lt_trichotomy x y with h | h | h
      · rw [if_neg (lt_asymm h), if_pos h] at hba
        cases hba
      · subst h
        simp only [if_neg (lt_irrefl x)] at hab hba
        rw [ih hab hba]
      · rw [if_pos h, if_neg (lt_asymm h)] at hab
        cases hab

instance : IsTotal Str strLeR :=
  ⟨fun a b => lexLe_total a b⟩

instance : IsTrans Str strLeR :=
  ⟨fun _ _ _ => lexLe_trans⟩

instance : IsAntisymm Str strLeR :=
  ⟨fun _ _ => lexLe_antisymm⟩

/-- `sortInts` maps permutations to syntactic equality. -/
theorem sortInts_eq_of_perm {l1 l2 : List Int} (h : l1.Perm l2) :
    sortInts l1 = sortInts l2 := by
  unfold sortInts
  exact @List.eq_of_perm_of_sorted Int (fun a b => a ≤ b) _ _ _
    (((List.perm_insertionSort _ l1).trans h).trans
      (List.perm_insertionSort _ l2).symm)
    (List.sorted_insertionSort _ l1) (List.sorted_insertionSort _ l2)

/-- `sortStrs` maps permutations to syntactic equality. -/
theorem sortStrs_eq_of_perm {l1 l2 : List Str} (h : l1.Perm l2) :
    sortStrs l1 = sortStrs l2 := by
  unfold sortStrs
  exact @List.eq_of_perm_of_sorted Str strLeR _ _ _
    (((List.perm_insertionSort _ l1).trans h).trans
      (List.perm_insertionSort _ l2).symm)
    (List.sorted_insertionSort _ l1) (List.sorted_insertionSort _ l2)

/-! ## C3 / C10: the `merge_edges` postcondition -/

/-- The remapped key of an input edge. -/
def edgeKey (remap : Str → Str) (d : Edge) : Str × Str :=
  (remap d.source, remap d.target)

/-- The input edges whose remapped endpoints equal the given pair. -/
def matchingEdges (remap : Str → Str) (k : Str × Str) (edges : List Edge) :
    List Edge :=
  edges.filter (fun d => decide (edgeKey remap d = k))

theorem matchingEdges_append (remap : Str → Str) (k : Str × Str)
    (l : List Edge) (e : Edge) :
    matchingEdges remap k (l ++ [e]) =
      matchingEdges remap k l ++ (if edgeKey remap e = k then [e] else []) := by
  unfold matchingEdges
  rw [List.filter_append]
  congr 1
  by_cases h : edgeKey remap e = k
  · simp [h]
  · simp [h]

theorem matchingEdges_nil_of_no_match (remap : Str → Str) (k : Str × Str)
    (l : List Edge) (h : ∀ d ∈ l, edgeKey remap d ≠ k) :
    matchingEdges remap k l = [] := by
  unfold matchingEdges
  rw [List.filter_eq_nil]
  intro d hd
  simp [h d hd]

/-- The loop invariant of the `merge_edges` aggregation. -/
def MEInv (remap : Str → Str) (processed : List Edge)
    (ea : List ((Str × Str) × AggEdge)) : Prop :=
  (dKeys ea).Nodup ∧
  (∀ p ∈ ea,
    p.2.source = p.1.1 ∧ p.2.target = p.1.2 ∧ p.1.1 ≠ p.1.2 ∧
    p.2.weight =
      ((matchingEdges remap p.1 processed).map (fun d => d.weight)).sum ∧
    p.2.years.Nodup ∧
    (∀ y, y ∈ p.2.years ↔
      ∃ d ∈ matchingEdges remap p.1 processed, y ∈ d.years) ∧
    p.2.doc_ids.Nodup ∧
    (∀ s, s ∈ p.2.doc_ids ↔
      ∃ d ∈ matchingEdges remap p.1 processed, s ∈ d.doc_ids)) ∧
  (∀ d ∈ processed,
    edgeKey remap d ∈ dKeys ea ∨ (edgeKey remap d).1 = (edgeKey remap d).2)

theorem MEInv_step (remap : Str → Str) (processed : List Edge)
    (ea : List ((Str × Str) × AggEdge)) (e : Edge)
    (h : MEInv remap processed ea) :
    MEInv remap (processed ++ [e]) (mergeEdgesStep remap ea e) := by
  obtain ⟨hkeys, hmem, hcomp⟩ := h
  unfold mergeEdgesStep
  by_cases hloop : remap e.source = remap e.target
  · rw [if_pos hloop]
    refine ⟨hkeys, ?_, ?_⟩
    · intro p hp
      obtain ⟨h1, h2, h3, h4, h5, h6, h7, h8⟩ := hmem p hp
      have hne : edgeKey remap e ≠ p.1 := by
        intro hk
        apply h3
        rw [← hk]
        exact hloop
      refine ⟨h1, h2, h3, ?_, h5, ?_, h7, ?_⟩
      · rw [matchingEdges_append, if_neg hne, List.append_nil]
        exact h4
      · intro y
        rw [matchingEdges_append, if_neg hne, List.append_nil]
        exact h6 y
      · intro s
        rw [matchingEdges_append, if_neg hne, List.append_nil]
        exact h8 s
    · intro d hd
      rcases List.mem_append.mp hd with hd | hd
      · exact hcomp d hd
      · simp only [List.mem_singleton] at hd
        subst hd
        exact Or.inr hloop
  · rw [if_neg hloop]
    cases hget : dGet? ea (remap e.source, remap e.target) with
    | some agg =>
      simp only [hget]
      have hkmem : ((remap e.source, remap e.target), agg) ∈ ea := dGet?_mem hget
      have hinmem := hmem _ hkmem
      obtain ⟨h1, h2, h3, h4, h5, h6, h7, h8⟩ := hinmem
      dsimp only at h1 h2 h3 h4 h5 h6 h7 h8
      have hkeys2 : (dKeys (dSet ea (remap e.source, remap e.target)
          (AggEdge.mk agg.source agg.target (agg.weight + e.weight)
            (e.years.foldl sInsert agg.years)
            (e.doc_ids.foldl sInsert agg.doc_ids)))).Nodup := by
        rw [dKeys_dSet]
        split
        · exact hkeys
        · rename_i hhas
          exact absurd ((dHas_iff_mem_keys _ _).mpr
            (List.mem_map.mpr ⟨_, hkmem, rfl⟩)) (by simpa using hhas)
      refine ⟨hkeys2, ?_, ?_⟩
      · intro p hp
        rcases (mem_dSet_iff hkeys).mp hp with rfl | ⟨hpold, hpne⟩
        · have hkey : edgeKey remap e = (remap e.source, remap e.target) := rfl
          refine ⟨h1, h2, h3, ?_, ?_, ?_, ?_, ?_⟩
          · simp only
            rw [matchingEdges_append, if_pos hkey, List.map_append,
              List.sum_append]
            simp [h4]
          · exact nodup_foldl_sInsert _ _ h5
          · intro y
            simp only
            rw [mem_foldl_sInsert, matchingEdges_append, if_pos hkey]
            simp only [List.mem_append]
            constructor
            · rintro (hy | hy)
              · rcases (h6 y).mp hy with ⟨d, hd, hdy⟩
                exact ⟨d, Or.inl hd, hdy⟩
              · exact ⟨e, Or.inr (List.mem_singleton.mpr rfl), hy⟩
            · rintro ⟨d, hd | hd, hdy⟩
              · exact Or.inl ((h6 y).mpr ⟨d, hd, hdy⟩)
              · simp only [List.mem_singleton] at hd
                subst hd
                exact Or.inr hdy
          · exact nodup_foldl_sInsert _ _ h7
          · intro s
            simp only
            rw [mem_foldl_sInsert, matchingEdges_append, if_pos hkey]
            simp only [List.mem_append]
            constructor
            · rintro (hs | hs)
              · rcases (h8 s).mp hs with ⟨d, hd, hds⟩
                exact ⟨d, Or.inl hd, hds⟩
              · exact ⟨e, Or.inr (List.mem_singleton.mpr rfl), hs⟩
            · rintro ⟨d, hd | hd, hds⟩
              · exact Or.inl ((h8 s).mpr ⟨d, hd, hds⟩)
              · simp only [List.mem_singleton] at hd
                subst hd
                exact Or.inr hds
        · obtain ⟨g1, g2, g3, g4, g5, g6, g7, g8⟩ := hmem p hpold
          have hne : edgeKey remap e ≠ p.1 := fun hk => hpne (by rw [← hk]; rfl)
          refine ⟨g1, g2, g3, ?_, g5, ?_, g7, ?_⟩
          · rw [matchingEdges_append, if_neg hne, List.append_nil]
            exact g4
          · intro y
            rw [matchingEdges_append, if_neg hne, List.append_nil]
            exact g6 y
          · intro s
            rw [matchingEdges_append, if_neg hne, List.append_nil]
            exact g8 s
      · intro d hd
        rcases List.mem_append.mp hd with hd | hd
        · rcases hcomp d hd with hk | hk
          · left
            rw [dKeys_dSet, if_pos ((dHas_iff_mem_keys _ _).mpr
              (List.mem_map.mpr ⟨_, hkmem, rfl⟩))]
            exact hk
          · exact Or.inr hk
        · simp only [List.mem_singleton] at hd
          subst hd
          left
          rw [dKeys_dSet, if_pos ((dHas_iff_mem_keys _ _).mpr
            (List.mem_map.mpr ⟨_, hkmem, rfl⟩))]
          exact List.mem_map.mpr ⟨_, hkmem, rfl⟩
    | none =>
      simp only [hget]
      have hnotin : (remap e.source, remap e.target) ∉ dKeys ea := by
        intro hk
        have := (dGet?_eq_none_iff ea _).mp hget
        rw [(dHas_iff_mem_keys ea _).symm] at hk
        rw [this] at hk
        cases hk
      have hnomatch : matchingEdges remap (remap e.source, remap e.target)
          processed = [] := by
        apply matchingEdges_nil_of_no_match
        intro d hd hk
        rcases hcomp d hd with hm | hm
        · rw [hk] at hm
          exact hnotin hm
        · rw [hk] at hm
          exact hloop hm
      refine ⟨?_, ?_, ?_⟩
      · unfold dKeys
        rw [List.map_append]
        simp only [List.map_cons, List.map_nil]
        refine List.Nodup.append hkeys (List.nodup_singleton _) ?_
        intro a ha hb
        simp only [List.mem_singleton] at hb
        subst hb
        exact hnotin ha
      · intro p hp
        rcases List.mem_append.mp hp with hpold | hpnew
        · obtain ⟨g1, g2, g3, g4, g5, g6, g7, g8⟩ := hmem p hpold
          have hne : edgeKey remap e ≠ p.1 := by
            intro hk
            apply hnotin
            rw [show (remap e.source, remap e.target) = edgeKey remap e from rfl,
              hk]
            exact List.mem_map.mpr ⟨p, hpold, rfl⟩
          refine ⟨g1, g2, g3, ?_, g5, ?_, g7, ?_⟩
          · rw [matchingEdges_append, if_neg hne, List.append_nil]
            exact g4
          · intro y
            rw [matchingEdges_append, if_neg hne, List.append_nil]
            exact g6 y
          · intro s
            rw [matchingEdges_append, if_neg hne, List.append_nil]
            exact g8 s
        · simp only [List.mem_singleton] at hpnew
          subst hpnew
          have hkey : edgeKey remap e = (remap e.source, remap e.target) := rfl
          refine ⟨rfl, rfl, hloop, ?_, nodup_dedupFirst _, ?_,
            nodup_dedupFirst _, ?_⟩
          · simp only
            rw [matchingEdges_append, if_pos hkey, hnomatch]
            simp
          · intro y
            simp only [mem_dedupFirst]
            rw [matchingEdges_append, if_pos hkey, hnomatch]
            simp
          · intro s
            simp only [mem_dedupFirst]
            rw [matchingEdges_append, if_pos hkey, hnomatch]
            simp
      · intro d hd
        rcases List.mem_append.mp hd with hd | hd
        · rcases hcomp d hd with hk | hk
          · left
            unfold dKeys
            rw [List.map_append]
            exact List.mem_append.mpr (Or.inl hk)
          · exact Or.inr hk
        · simp only [List.mem_singleton] at hd
          subst hd
          left
          unfold dKeys
          rw [List.map_append]
          refine List.mem_append.mpr (Or.inr ?_)
          simp [edgeKey]

theorem MEInv_fold (remap : Str → Str) (l : List Edge) :
    ∀ (processed : List Edge) (ea : List ((Str × Str) × AggEdge)),
      MEInv remap processed ea →
      MEInv remap (processed ++ l) (l.foldl (mergeEdgesStep remap) ea) := by
  induction l with
  | nil => intro processed ea h; simpa using h
  | cons e rest ih =>
    intro processed ea h
    have h1 := MEInv_step remap processed ea e h
    have h2 := ih (processed ++ [e]) _ h1
    simpa using h2

theorem MEInv_base (remap : Str → Str) : MEInv remap [] [] := by
  refine ⟨List.nodup_nil, ?_, ?_⟩
  · intro p hp
    cases hp
  · intro d hd
    cases hd

theorem MEInv_final (remap : Str → Str) (edges : List Edge) :
    MEInv remap edges (edges.foldl (mergeEdgesStep remap) []) := by
  have := MEInv_fold remap edges [] [] (MEInv_base remap)
  simpa using this

/-- C3: every output edge of `merge_edges` has distinct endpoints, weight
equal to the sum of the weights of exactly the input edges whose remapped
endpoints equal its own, `years`/`doc_ids` equal to the sorted set-unions of
those edges' `years`/`doc_ids`, and input edges whose remapped endpoints
coincide contribute to no output edge. -/
theorem C3_merge_edges_spec (edges : List Edge) (remap : Str → Str) :
    ∀ e ∈ merge_edges edges remap,
      e.source ≠ e.target ∧
      e.weight = ((matchingEdges remap (e.source, e.target) edges).map
        (fun d => d.weight)).sum ∧
      e.years = sortInts (dedupFirst
        ((matchingEdges remap (e.source, e.target) edges).flatMap
          (fun d => d.years))) ∧
      e.doc_ids = sortStrs (dedupFirst
        ((matchingEdges remap (e.source, e.target) edges).flatMap
          (fun d => d.doc_ids))) ∧
      ∀ d ∈ edges, remap d.source = remap d.target →
        edgeKey remap d ≠ (e.source, e.target) := by
  intro e he
  obtain ⟨hkeys, hmem, -⟩ := MEInv_final remap edges
  unfold merge_edges at he
  rcases List.mem_map.mp he with ⟨p, hp, rfl⟩
  obtain ⟨h1, h2, h3, h4, h5, h6, h7, h8⟩ := hmem p hp
  have hsrc : (finalizeAgg p).source = p.1.1 := h1
  have htgt : (finalizeAgg p).target = p.1.2 := h2
  have hkey : ((finalizeAgg p).source, (finalizeAgg p).target) = p.1 := by
    rw [hsrc, htgt]
  refine ⟨?_, ?_, ?_, ?_, ?_⟩
  · rw [hsrc, htgt]
    exact h3
  · show p.2.weight = _
    rw [hkey, h4]
  · show sortInts p.2.years = _
    rw [hkey]
    apply sortInts_eq_of_perm
    rw [List.perm_ext_iff_of_nodup h5 (nodup_dedupFirst _)]
    intro y
    rw [mem_dedupFirst, List.mem_flatMap]
    exact h6 y
  · show sortStrs p.2.doc_ids = _
    rw [hkey]
    apply sortStrs_eq_of_perm
    rw [List.perm_ext_iff_of_nodup h7 (nodup_dedupFirst _)]
    intro s
    rw [mem_dedupFirst, List.mem_flatMap]
    exact h8 s
  · intro d _ hloop hk
    rw [hkey] at hk
    apply h3
    rw [← hk]
    exact hloop

/-- The identity remap, used by the witnesses below. -/
def remapW : Str → Str := fun x => x

/-- Two concrete input edges for the `merge_edges` witnesses. -/
def edgesW : List Edge :=
  [Edge.mk (str ("a")) (str ("b")) 2 [2017] [str ("d1")],
   Edge.mk (str ("c")) (str ("b")) 3 [2018] [str ("d2")]]

/-- The first aggregated output edge for `edgesW` under `remapW`. -/
def edgeW : Edge := Edge.mk (str ("a")) (str ("b")) 2 [2017] [str ("d1")]

/-- Witness for C3 at a concrete edge list and the identity remap. -/
theorem C3_merge_edges_spec_witness :
    edgeW ∈ merge_edges edgesW remapW ∧ edgeW.source ≠ edgeW.target ∧
      edgeW.weight = ((matchingEdges remapW (edgeW.source, edgeW.target)
        edgesW).map (fun d => d.weight)).sum :=
  ⟨by decide,
   (C3_merge_edges_spec edgesW remapW edgeW (by decide)).1,
   (C3_merge_edges_spec edgesW remapW edgeW (by decide)).2.1⟩

/-- C10: no two output edges of `merge_edges` share the same ordered
`(source, target)` pair. -/
theorem C10_edge_key_uniqueness (edges : List Edge) (remap : Str → Str) :
    ((merge_edges edges remap).map (fun e => (e.source, e.target))).Nodup := by
  obtain ⟨hkeys, hmem, -⟩ := MEInv_final remap edges
  unfold merge_edges
  rw [List.map_map]
  have heq : ((edges.foldl (mergeEdgesStep remap) []).map
      ((fun e => (e.source, e.target)) ∘ finalizeAgg)) =
      dKeys (edges.foldl (mergeEdgesStep remap) []) := by
    apply List.map_congr_left
    intro p hp
    obtain ⟨h1, h2, -⟩ := hmem p hp
    show ((finalizeAgg p).source, (finalizeAgg p).target) = p.1
    have hsrc : (finalizeAgg p).source = p.1.1 := h1
    have htgt : (finalizeAgg p).target = p.1.2 := h2
    rw [hsrc, htgt]
  rw [heq]
  exact hkeys

/-! ## C8: Layer-3 order (in)sensitivity -/

theorem replaceGo_fuel_eq (pat rep : Str) :
    ∀ f1 f2 s, s.length ≤ f1 → s.length ≤ f2 →
      replaceGo pat rep f1 s = replaceGo pat rep f2 s := by
  intro f1
  induction f1 with
  | zero =>
    intro f2 s hs1 _
    have : s = [] := List.length_eq_zero.mp (Nat.le_zero.mp hs1)
    subst this
    cases f2 <;> rfl
  | succ g ih =>
    intro f2 s hs1 hs2
    cases s with
    | nil => cases f2 <;> rfl
    | cons c cs =>
      cases f2 with
      | zero => simp at hs2
      | succ h =>
        show replaceGo pat rep (g + 1) (c :: cs) =
          replaceGo pat rep (h + 1) (c :: cs)
        unfold replaceGo
        by_cases hcond : pat ≠ [] ∧ pat.isPrefixOf (c :: cs)
        · rw [if_pos hcond, if_pos hcond]
          congr 1
          have hlen : ((c :: cs).drop pat.length).length ≤ g := by
            have hp : 0 < pat.length := List.length_pos.mpr hcond.1
            simp only [List.length_drop, List.length_cons]
            simp only [List.length_cons] at hs1
            omega
          have hlen2 : ((c :: cs).drop pat.length).length ≤ h := by
            have hp : 0 < pat.length := List.length_pos.mpr hcond.1
            simp only [List.length_drop, List.length_cons]
            simp only [List.length_cons] at hs2
            omega
          exact ih h _ hlen hlen2
        · rw [if_neg hcond, if_neg hcond]
          congr 1
          exact ih h cs (by simp only [List.length_cons] at hs1; omega)
            (by simp only [List.length_cons] at hs2; omega)

theorem prefix_of_append_sep {pat u v : Str} (hsep : '.' ∉ pat)
    (h : pat.isPrefixOf (u ++ '.' :: v) = true) : pat.isPrefixOf u = true := by
  rw [List.isPrefixOf_iff_prefix] at h ⊢
  by_cases hlen : pat.length ≤ u.length
  · have htake := List.prefix_iff_eq_take.mp h
    rw [List.take_append_of_le_length hlen] at htake
    rw [htake]
    exact List.take_prefix _ _
  · exfalso
    apply hsep
    have hm : pat.length = u.length + (pat.length - u.length) := by omega
    have htake := List.prefix_iff_eq_take.mp h
    rw [htake, hm, List.take_append] at *
    have hpos : 0 < pat.length - u.length := by omega
    cases hd : ('.' :: v).take (pat.length - u.length) with
    | nil =>
      rw [List.take_eq_nil_iff] at hd
      rcases hd with hd | hd
      · omega
      · cases hd
    | cons x xs =>
      have hx : x = '.' := by
        cases hn : pat.length - u.length with
        | zero => omega
        | succ m =>
          rw [hn] at hd
          simp only [List.take] at hd
          exact (List.cons.inj hd).1.symm
      rw [hx]
      exact List.mem_append.mpr (Or.inr (List.mem_cons_self _ _))

theorem replaceGo_cons (pat rep : Str) (fuel : Nat) (c : Char) (cs : Str) :
    replaceGo pat rep (fuel + 1) (c :: cs) =
      if pat ≠ [] ∧ pat.isPrefixOf (c :: cs) = true then
        rep ++ replaceGo pat rep fuel ((c :: cs).drop pat.length)
      else c :: replaceGo pat rep fuel cs := rfl

theorem replaceL_factor (pat rep : Str) (hp : pat ≠ []) (hsep : '.' ∉ pat) :
    ∀ fuel u v, u.length + 1 + v.length ≤ fuel →
      replaceGo pat rep fuel (u ++ '.' :: v) =
        replaceL pat rep u ++ '.' :: replaceL pat rep v := by
  intro fuel
  induction fuel with
  | zero => intro u v h; omega
  | succ g ih =>
    intro u v hle
    cases u with
    | nil =>
      show replaceGo pat rep (g + 1) ('.' :: v) = _
      have hnp : ¬ (pat ≠ [] ∧ pat.isPrefixOf ('.' :: v)) := by
        rintro ⟨-, hpre⟩
        cases pat with
        | nil => exact hp rfl
        | cons p ps =>
          have : p = '.' := by
            rw [List.isPrefixOf_iff_prefix] at hpre
            obtain ⟨t, ht⟩ := hpre
            exact (List.cons.inj ht.symm).1.symm
          exact hsep (this ▸ List.mem_cons_self p ps)
      unfold replaceGo
      rw [if_neg hnp]
      show '.' :: replaceGo pat rep g v = [] ++ '.' :: replaceL pat rep v
      rw [List.nil_append]
      congr 1
      unfold replaceL
      exact replaceGo_fuel_eq pat rep g v.length v (by simp at hle; omega)
        le_rfl
    | cons c cs =>
      show replaceGo pat rep (g + 1) ((c :: cs) ++ '.' :: v) = _
      have hiff : (pat ≠ [] ∧ pat.isPrefixOf ((c :: cs) ++ '.' :: v)) ↔
          (pat ≠ [] ∧ pat.isPrefixOf (c :: cs)) := by
        constructor
        · rintro ⟨h1, h2⟩
          exact ⟨h1, prefix_of_append_sep hsep h2⟩
        · rintro ⟨h1, h2⟩
          refine ⟨h1, ?_⟩
          rw [List.isPrefixOf_iff_prefix] at h2 ⊢
          exact h2.trans (List.prefix_append _ _)
      rw [List.cons_append, replaceGo_cons]
      by_cases hcond : pat ≠ [] ∧ pat.isPrefixOf (c :: cs) = true
      · rw [if_pos (by rw [← List.cons_append]; exact hiff.mpr hcond)]
        have hplen : pat.length ≤ (c :: cs).length := by
          have := hcond.2
          rw [List.isPrefixOf_iff_prefix] at this
          exact this.length_le
        have hdrop : ((c :: cs) ++ '.' :: v).drop pat.length =
            ((c :: cs).drop pat.length) ++ '.' :: v := by
          rw [List.drop_append_of_le_length hplen]
        rw [← List.cons_append, hdrop]
        rw [ih _ v (by
          have hpp : 0 < pat.length := List.length_pos.mpr hcond.1
          simp only [List.length_drop, List.length_cons] at hle ⊢
          omega)]
        have hstep : replaceL pat rep (c :: cs) =
            rep ++ replaceL pat rep ((c :: cs).drop pat.length) := by
          show replaceGo pat rep (c :: cs).length (c :: cs) = _
          rw [List.length_cons, replaceGo_cons, if_pos hcond]
          congr 1
          unfold replaceL
          exact replaceGo_fuel_eq pat rep cs.length _ _ (by
            have hpp : 0 < pat.length := List.length_pos.mpr hcond.1
            simp only [List.length_drop, List.length_cons]
            omega) le_rfl
        rw [hstep, List.append_assoc]
      · rw [if_neg (by rw [← List.cons_append]; exact fun hx => hcond (hiff.mp hx))]
        rw [ih cs v (by simp only [List.length_append, List.length_cons] at hle ⊢; omega)]
        have hstep : replaceL pat rep (c :: cs) = c :: replaceL pat rep cs := by
          show replaceGo pat rep (c :: cs).length (c :: cs) = _
          rw [List.length_cons, replaceGo_cons, if_neg hcond]
          rfl
        rw [hstep]
        rfl

theorem replaceL_append_sep (pat rep u v : Str) (hp : pat ≠ [])
    (hsep : '.' ∉ pat) :
    replaceL pat rep (u ++ '.' :: v) =
      replaceL pat rep u ++ '.' :: replaceL pat rep v := by
  unfold replaceL
  rw [show (u ++ '.' :: v).length = u.length + 1 + v.length by
    simp [List.length_append]; omega]
  exact replaceL_factor pat rep hp hsep _ u v le_rfl

theorem foldl_replace_factor (tbl : List (Str × Str))
    (h : ∀ pr ∈ tbl, pr.1 ≠ [] ∧ '.' ∉ pr.1) (u v : Str) :
    tbl.foldl (fun res pr => replaceL pr.1 pr.2 res) (u ++ '.' :: v) =
      tbl.foldl (fun res pr => replaceL pr.1 pr.2 res) u ++ '.' ::
        tbl.foldl (fun res pr => replaceL pr.1 pr.2 res) v := by
  induction tbl generalizing u v with
  | nil => rfl
  | cons pr rest ih =>
    simp only [List.foldl_cons]
    rw [replaceL_append_sep pr.1 pr.2 u v (h pr (List.mem_cons_self _ _)).1
      (h pr (List.mem_cons_self _ _)).2]
    exact ih (fun q hq => h q (List.mem_cons_of_mem _ hq)) _ _

/-- OCR normalization distributes over a dot-joined local. -/
theorem ocr_normalize_local_append_sep (u v : Str) :
    ocr_normalize_local (u ++ '.' :: v) =
      ocr_normalize_local u ++ '.' :: ocr_normalize_local v := by
  unfold ocr_normalize_local
  exact foldl_replace_factor LOCAL_OCR_SORTED (by decide) u v

theorem mem_replaceGo_sub (pat rep : Str) :
    ∀ fuel s y, y ∈ replaceGo pat rep fuel s → y ∈ s ∨ y ∈ rep := by
  intro fuel
  induction fuel with
  | zero =>
    intro s y hy
    cases s with
    | nil => cases hy
    | cons c cs => exact Or.inl hy
  | succ g ih =>
    intro s y hy
    cases s with
    | nil => cases hy
    | cons c cs =>
      unfold replaceGo at hy
      split at hy
      · rcases List.mem_append.mp hy with hy | hy
        · exact Or.inr hy
        · rcases ih _ y hy with hy | hy
          · exact Or.inl (List.drop_subset _ _ hy)
          · exact Or.inr hy
      · rcases List.mem_cons.mp hy with rfl | hy
        · exact Or.inl (List.mem_cons_self _ _)
        · rcases ih cs y hy with hy | hy
          · exact Or.inl (List.mem_cons_of_mem _ hy)
          · exact Or.inr hy

/-- OCR normalization of a separator-free local stays separator-free. -/
theorem sepFree_ocr_normalize (s : Str) (hs : ∀ c ∈ s, isSepC c = false) :
    ∀ c ∈ ocr_normalize_local s, isSepC c = false := by
  unfold ocr_normalize_local
  have hgen : ∀ (tbl : List (Str × Str)),
      (∀ pr ∈ tbl, ∀ c ∈ pr.2, isSepC c = false) →
      ∀ (t : Str), (∀ c ∈ t, isSepC c = false) →
      ∀ c ∈ tbl.foldl (fun res pr => replaceL pr.1 pr.2 res) t,
        isSepC c = false := by
    intro tbl
    induction tbl with
    | nil => intro _ t ht c hc; exact ht c hc
    | cons pr rest ih =>
      intro hrep t ht c hc
      simp only [List.foldl_cons] at hc
      refine ih (fun q hq => hrep q (List.mem_cons_of_mem _ hq)) _ ?_ c hc
      intro x hx
      rcases mem_replaceGo_sub pr.1 pr.2 t.length t x hx with hx | hx
      · exact ht x hx
      · exact hrep pr (List.mem_cons_self _ _) x hx
  exact hgen LOCAL_OCR_SORTED (by decide) s hs

theorem splitOnPred_cons_eq (p : Char → Bool) (c : Char) (cs : Str)
    (t : Str) (ts : List Str) (h : splitOnPred p cs = t :: ts) :
    splitOnPred p (c :: cs) =
      if p c then [] :: t :: ts else (c :: t) :: ts := by
  unfold splitOnPred
  rw [h]

theorem splitOnPred_ne_nil (p : Char → Bool) (s : Str) : splitOnPred p s ≠ [] := by
  cases s with
  | nil => simp [splitOnPred]
  | cons c cs =>
    cases h : splitOnPred p cs with
    | nil =>
      unfold splitOnPred
      rw [h]
      simp
    | cons t ts =>
      rw [splitOnPred_cons_eq p c cs t ts h]
      split <;> simp

theorem splitOnPred_append_sep (p : Char → Bool) (u v : Str)
    (hu : ∀ c ∈ u, p c = false) (hsep : p '.' = true) :
    splitOnPred p (u ++ '.' :: v) = u :: splitOnPred p v := by
  induction u with
  | nil =>
    cases h : splitOnPred p v with
    | nil => exact absurd h (splitOnPred_ne_nil p v)
    | cons t ts =>
      rw [List.nil_append, splitOnPred_cons_eq p '.' v t ts h, if_pos hsep]
  | cons c cs ih =>
    have hc : p c = false := hu c (List.mem_cons_self _ _)
    have ih2 := ih (fun x hx => hu x (List.mem_cons_of_mem _ hx))
    rw [List.cons_append,
      splitOnPred_cons_eq p c (cs ++ '.' :: v) cs (splitOnPred p v) ih2,
      if_neg (by rw [hc]; simp)]

theorem splitOnPred_sepFree (p : Char → Bool) (s : Str)
    (hs : ∀ c ∈ s, p c = false) : splitOnPred p s = [s] := by
  induction s with
  | nil => rfl
  | cons c cs ih =>
    rw [splitOnPred_cons_eq p c cs cs []
        (ih (fun x hx => hs x (List.mem_cons_of_mem _ hx))),
      if_neg (by rw [hs c (List.mem_cons_self _ _)]; simp)]

/-- The canonical key of a dot-joined pair of separator-free tokens of
OCR length at least 2: the sorted dot-join. -/
theorem canonicalize_pair (x y : Str)
    (hx : ∀ c ∈ x, isSepC c = false) (hy : ∀ c ∈ y, isSepC c = false)
    (hlx : 2 ≤ x.length) (hly : 2 ≤ y.length) :
    canonicalize_local (x ++ '.' :: y) = pyJoin ['.'] (sortStrs [x, y]) := by
  unfold canonicalize_local splitSeps
  rw [splitOnPred_append_sep isSepC _ _ hx (by decide),
    splitOnPred_sepFree isSepC _ hy]
  have h1 : decide (1 < x.length) = true := by
    simp only [decide_eq_true_eq]
    omega
  have h2 : decide (1 < y.length) = true := by
    simp only [decide_eq_true_eq]
    omega
  simp only [List.filter_cons, List.filter_nil, h1, h2, if_true]
  rw [if_pos (by simp)]

/-- C8 (amended): for separator-free, `@`-free tokens `a`, `b` whose
OCR-normalized forms have length at least 2, the addresses `a.b@d` and
`b.a@d` share one canonical key after Layer 3. -/
theorem C8_layer3_order_amended (a b d : Str)
    (ha_sep : ∀ c ∈ a, isSepC c = false) (hb_sep : ∀ c ∈ b, isSepC c = false)
    (ha_at : '@' ∉ a) (hb_at : '@' ∉ b)
    (hlen_a : 2 ≤ (ocr_normalize_local a).length)
    (hlen_b : 2 ≤ (ocr_normalize_local b).length) :
    apply_local_ocr_normalization (a ++ '.' :: (b ++ '@' :: d)) =
      apply_local_ocr_normalization (b ++ '.' :: (a ++ '@' :: d)) := by
  have hkey : ∀ (x y : Str), (∀ c ∈ x, isSepC c = false) →
      (∀ c ∈ y, isSepC c = false) → '@' ∉ x → '@' ∉ y →
      2 ≤ (ocr_normalize_local x).length →
      2 ≤ (ocr_normalize_local y).length →
      apply_local_ocr_normalization (x ++ '.' :: (y ++ '@' :: d)) =
        pyJoin ['.']
          (sortStrs [ocr_normalize_local x, ocr_normalize_local y]) ++
          '@' :: d := by
    intro x y hx hy hax hay hlx hly
    have hshape : x ++ '.' :: (y ++ '@' :: d) = (x ++ '.' :: y) ++ '@' :: d := by
      simp
    rw [hshape]
    have hnoat : '@' ∉ x ++ '.' :: y := by
      intro hm
      rcases List.mem_append.mp hm with hm | hm
      · exact hax hm
      · rcases List.mem_cons.mp hm with hm | hm
        · cases hm
        · exact hay hm
    unfold apply_local_ocr_normalization
    rw [hasAt_append_at, splitFirst_at_append _ d hnoat, if_neg (by simp)]
    show canonicalize_local (ocr_normalize_local (x ++ '.' :: y)) ++ '@' :: d = _
    rw [ocr_normalize_local_append_sep]
    rw [canonicalize_pair _ _ (sepFree_ocr_normalize x hx)
      (sepFree_ocr_normalize y hy) hlx hly]
  have hperm : sortStrs [ocr_normalize_local a, ocr_normalize_local b] =
      sortStrs [ocr_normalize_local b, ocr_normalize_local a] :=
    sortStrs_eq_of_perm (List.Perm.swap _ _ _)
  rw [hkey a b ha_sep hb_sep ha_at hb_at hlen_a hlen_b,
    hkey b a hb_sep ha_sep hb_at ha_at hlen_b hlen_a, hperm]

/-- Witness for the amended C8 at tokens `ab`, `cd` and domain `x`. -/
theorem C8_layer3_order_amended_witness :
    ((∀ c ∈ str ("ab"), isSepC c = false) ∧ '@' ∉ str ("ab") ∧
      (∀ c ∈ str ("cd"), isSepC c = false) ∧ '@' ∉ str ("cd") ∧
      2 ≤ (ocr_normalize_local (str ("ab"))).length ∧
      2 ≤ (ocr_normalize_local (str ("cd"))).length) ∧
    apply_local_ocr_normalization
        (str ("ab") ++ '.' :: (str ("cd") ++ '@' :: str ("x"))) =
      apply_local_ocr_normalization
        (str ("cd") ++ '.' :: (str ("ab") ++ '@' :: str ("x"))) :=
  ⟨⟨by decide, by decide, by decide, by decide, by decide, by decide⟩,
    C8_layer3_order_amended (str ("ab")) (str ("cd")) (str ("x"))
      (by decide) (by decide) (by decide) (by decide) (by decide) (by decide)⟩

/-! ## Singleton-map lemmas for the amended idempotence claim -/

theorem dGet?_cons {κ ν : Type} [DecidableEq κ] (a : κ) (b : ν)
    (m : List (κ × ν)) (k : κ) :
    dGet? ((a, b) :: m) k = if a = k then some b else dGet? m k := by
  unfold dGet?
  by_cases h : a = k
  · rw [if_pos h, List.find?_cons_of_pos _ (by simp [h])]
    rfl
  · rw [if_neg h, List.find?_cons_of_neg _ (by simp [h])]

theorem dGet?_map_self (nodes : List Node) (n : Node)
    (hids : (nodes.map (fun m => m.id)).Nodup) (hmem : n ∈ nodes) :
    dGet? (nodes.map (fun m => (m.id, m))) n.id = some n := by
  induction nodes with
  | nil => cases hmem
  | cons m ms ih =>
    simp only [List.map_cons] at hids ⊢
    rw [dGet?_cons]
    rcases List.mem_cons.mp hmem with rfl | hmem2
    · rw [if_pos rfl]
    · rw [if_neg (fun (he : m.id = n.id) =>
        (List.nodup_cons.mp hids).1
          (by rw [he]; exact List.mem_map_of_mem _ hmem2))]
      exact ih (List.nodup_cons.mp hids).2 hmem2

end Dedup
